import Mathlib

/-!
Verification of the record-reconciliation engine of the Compare_murex_interface
repository (src/core/comparator_33.py, the evolutionary variant of
src/core/comparator.py that the batch orchestrator instantiates: it accepts the
`separator` argument and adds the key-uniqueness checker, the robust encoding
loop and Unicode normalization described by the design document).

The engine is embedded shallowly: pandas DataFrames become `Table` values
(a header of column names plus rows, each row an ordered association list of
column name to string cell, faithful to `dtype=str` loading); the mutable
`errors` / `differences` / `structured_differences` instance lists become
explicit list outputs concatenated in the order the Python code appends to
them.  The one external function the engine calls that cannot be reproduced
in full, `unicodedata.normalize NFC`, is threaded through every definition as
an explicit parameter `nfc`; theorems that need a fact about real NFC (for
instance that it fixes ASCII strings, or that it is stable on strings it has
already produced) take that fact as a hypothesis, and witnesses instantiate
`nfc` with the identity, which satisfies those facts.

The Python `float` rounding in `round(x, 2)` is idealized as exact rational
rounding half-to-even, computed over integers: a percentage with two decimal
places is represented as an integer count of hundredths of a percent
(33.33 becomes 3333).
-/

namespace Murex

/-! ### Python text primitives

Character-level embeddings of the `str` and `re` operations the engine uses:
`str.strip`, the regex class `\s`, `str.replace(NBSP, " ")` and the collapse
of whitespace runs performed by `re.sub(r"\s+", " ", s)`. -/

/-- Code points of the characters matched by the Python `\s` regex class (and
stripped by `str.strip`) on `str` values. -/
def pySpaceCodes : List Nat :=
  [9, 10, 11, 12, 13, 28, 29, 30, 31, 32, 133, 160, 5760,
   8192, 8193, 8194, 8195, 8196, 8197, 8198, 8199, 8200, 8201, 8202,
   8232, 8233, 8239, 8287, 12288]

def isPySpace (c : Char) : Bool := pySpaceCodes.contains c.toNat

/-- U+00A0 NO-BREAK SPACE. -/
def nbsp : Char := Char.ofNat 160

/-- U+FFFD REPLACEMENT CHARACTER. -/
def replChar : Char := Char.ofNat 0xFFFD

/-- Apostrophe character, used to render Python `repr` style quoting. -/
def quoteChar : Char := Char.ofNat 39

def sq : String := String.singleton quoteChar

/-- Python `repr` of a string, as used in f-string interpolation of lists of
ids (quoting simplified: no escaping, which the engine messages never need
for the data the theorems exercise). -/
def pyRepr (s : String) : String := sq ++ s ++ sq

/-- `s.replace(u00A0, " ")` on the character list of a string. -/
def replaceNbspL (l : List Char) : List Char :=
  l.map fun c => if c = nbsp then ' ' else c

/-- `re.sub(r"\s+", " ", s)`: every maximal run of whitespace characters is
replaced by a single ASCII space. -/
def collapseWs : List Char → List Char
  | [] => []
  | [c] => if isPySpace c then [' '] else [c]
  | c :: d :: cs =>
    if isPySpace c then
      if isPySpace d then collapseWs (d :: cs)
      else ' ' :: collapseWs (d :: cs)
    else c :: collapseWs (d :: cs)

/-- `str.strip()`: drop leading and trailing whitespace. -/
def pyStripL (l : List Char) : List Char :=
  ((l.dropWhile isPySpace).reverse.dropWhile isPySpace).reverse

def pyStrip (s : String) : String := String.mk (pyStripL s.data)

def replaceNbsp (s : String) : String := String.mk (replaceNbspL s.data)

/-- `CSVComparator._normalize_unicode_cell` of comparator_33 (minus the
`pd.isna` guard, vacuous on string cells): NFC normalization, NBSP replaced by
a plain space, whitespace runs collapsed to one space, then strip.  The NFC
step is the abstract parameter `nfc`. -/
def normalizeUnicodeCell (nfc : String → String) (s : String) : String :=
  String.mk (pyStripL (collapseWs (replaceNbspL (nfc s).data)))

/-- `CSVComparator._normalize_val` of comparator_33: strip, then NFC, then
NBSP replaced by a plain space.  No numeric parsing of any kind. -/
def normVal (nfc : String → String) (s : String) : String :=
  String.mk (replaceNbspL (nfc (pyStrip s)).data)

/-! ### Data model

A `Table` embeds a pandas DataFrame loaded with `dtype=str`: an ordered header
of column names and rows of string cells; each row is an ordered association
list from column name to cell value, aligned with the header. -/

abbrev Row := List (String × String)

structure Table where
  header : List String
  rows : List Row
deriving DecidableEq

/-- One per-column difference inside a key-based `content_mismatch` entry. -/
structure CellDiff where
  col : String
  file1_value : String
  file2_value : String
deriving DecidableEq

/-- One cell difference inside a positional `content_mismatch` entry. -/
structure PosCellDiff where
  row : Nat
  col : String
  file1_value : String
  file2_value : String
deriving DecidableEq

/-- The tagged structured-difference records the engine appends to
`self.structured_differences`, one constructor per `"type"` value. -/
inductive SDiff where
  | header_count_mismatch (file1_count file2_count : Nat)
  | header_name_mismatch (file1_headers file2_headers : List String)
  | replacement_char_warning (file : String) (count : Nat)
  | duplicate_keys (file : String) (count : Nat) (ids : List String)
      (full_rows : List Row)
  | missing_records (exclusive_to_file : String) (count : Nat)
      (ids : List String) (full_rows : List Row)
  | additional_records (exclusive_to_file : String) (count : Nat)
      (ids : List String) (full_rows : List Row)
  | content_mismatch (key : String) (diff_count : Nat)
      (cell_diffs : List CellDiff) (full_row_file1 full_row_file2 : Row)
  | content_mismatch_positional (diff_count : Nat) (details : List PosCellDiff)
  | shape_mismatch (file1_shape file2_shape : Nat × Nat)
deriving DecidableEq

/-- The `summary` dictionary of `run_comparison`.  `matching_percentage` is
held in hundredths of a percent (`3333` renders as `33.33`). -/
structure Summary where
  total_rows_file1 : Nat
  total_rows_file2 : Nat
  missing_records : Nat
  additional_records : Nat
  rows_with_differences : Nat
  matching_rows_perfect : Int
  matching_percentage_bp : Int
deriving DecidableEq

/-- The dictionary `run_comparison` returns after a successful load (that
return value always carries a `summary` key). -/
structure LoadedResult where
  success : Bool
  summary : Summary
  errors : List String
  differences : List String
  structured_differences : List SDiff
deriving DecidableEq

/-- The full return contract of `run_comparison`: on a failed load the
returned dictionary has no `summary` key at all, embedded as `none`. -/
structure CompResult where
  success : Bool
  summary : Option Summary
  errors : List String
  differences : List String
  structured_differences : List SDiff
deriving DecidableEq

/-! ### Row and key helpers -/

/-- Cell access `row[col]` on an association-list row (missing columns read as
the empty string, the image of `NaN` under the load normalization). -/
def cellVal (r : Row) (c : String) : String :=
  ((r.find? fun p => decide (p.1 = c)).map Prod.snd).getD ""

/-- The key tuple of a row under the configured key columns. -/
def keyTuple (kc : List String) (r : Row) : List String :=
  kc.map (cellVal r)

/-- The list of key tuples of a table, in row order. -/
def keysOf (kc : List String) (t : Table) : List (List String) :=
  t.rows.map (keyTuple kc)

/-! ### Sorting of id lists

The Python `ids.sort()` call sorts strings (single key column) by code-point
lexicographic order and tuples of strings (composite key) lexicographically
component-wise; both always succeed on the string-typed data the engine
loads.  The orders are embedded as executable comparisons on character
lists. -/

def charsLe : List Char → List Char → Bool
  | [], _ => true
  | _ :: _, [] => false
  | a :: as, b :: bs =>
    if a < b then true else if b < a then false else charsLe as bs

def strLeP (a b : String) : Prop := charsLe a.data b.data = true

instance : DecidableRel strLeP := fun a b =>
  inferInstanceAs (Decidable (charsLe a.data b.data = true))

def tupLe : List String → List String → Bool
  | [], _ => true
  | _ :: _, [] => false
  | a :: as, b :: bs => if a = b then tupLe as bs else charsLe a.data b.data

def tupLeP (a b : List String) : Prop := tupLe a b = true

instance : DecidableRel tupLeP := fun a b =>
  inferInstanceAs (Decidable (tupLe a b = true))

/-- Python tuple `repr` of a key tuple (quoting simplified as in `pyRepr`). -/
def pyTupleRepr : List String → String
  | [x] => "(" ++ pyRepr x ++ ",)"
  | xs => "(" ++ String.intercalate ", " (xs.map pyRepr) ++ ")"

/-- Python list `repr` of a list of id strings. -/
def pyListRepr (xs : List String) : String :=
  "[" ++ String.intercalate ", " (xs.map pyRepr) ++ "]"

/-- The sorted, stringified id list recorded for missing/additional records:
single key column sorts the raw string values, a composite key sorts the key
tuples and then renders each as a tuple repr. -/
def sortedIds (kc : List String) (rows : List Row) : List String :=
  match kc with
  | [k] => List.insertionSort strLeP (rows.map fun r => cellVal r k)
  | _ => (List.insertionSort tupLeP (rows.map (keyTuple kc))).map pyTupleRepr

/-- First-occurrence deduplication, the embedding of `pandas.Series.unique`
and `DataFrame.drop_duplicates`. -/
def pdUnique {α : Type} [DecidableEq α] : List α → List α
  | [] => []
  | a :: l => a :: pdUnique (l.filter fun x => decide (x ≠ a))
termination_by l => l.length
decreasing_by
  simp only [List.length_cons]
  exact Nat.lt_succ_of_le (List.length_filter_le _ _)

/-- Substring test (the Python `in` operator on strings), used by `run_comparison` to
detect fatal key-column errors by scanning messages for `"Key column"`. -/
def listInfix (p : List Char) : List Char → Bool
  | [] => p.isEmpty
  | c :: t => p.isPrefixOf (c :: t) || listInfix p t

/-! ### Message texts

The human-readable strings the engine appends to `errors` and `differences`.
Only their presence and the `"Key column"` token matter to control flow; the
texts mirror the f-strings of the source (list previews use the simplified
`pyRepr` quoting). -/

def keyColToken : String := "Key column"

def keyColMsg (k which : String) : String :=
  keyColToken ++ " " ++ pyRepr k ++ " not found in " ++ which ++ " headers."

def hdrCountMsg (n1 n2 : Nat) : String :=
  "Header count mismatch: File 1 has " ++ toString n1 ++ ", File 2 has " ++
    toString n2

def hdrNameMsg (h1 h2 : List String) : String :=
  "Header name mismatch:" ++ String.singleton (Char.ofNat 10) ++ "File 1: " ++
    pyListRepr h1 ++ String.singleton (Char.ofNat 10) ++ "File 2: " ++
    pyListRepr h2

def idsPreview (ids : List String) : String :=
  if 5 < ids.length then pyListRepr (ids.take 5) ++ "..." else pyListRepr ids

def dupErrMsg (which : String) (count : Nat) (preview : String) : String :=
  "Duplicate keys found in " ++ which ++ ". Count: " ++ toString count ++
    ". IDs: " ++ preview

def replWarnMsg (which : String) (count : Nat) : String :=
  "Advertencia: Se encontraron caracteres de reemplazo " ++
    pyRepr (String.singleton replChar) ++ " en " ++ which ++ " en " ++
    toString count ++ " celdas."

def missingMsg (count : Nat) (preview : String) : String :=
  "Missing records (in File 1 but not File 2): " ++ toString count ++
    " records. IDs: " ++ preview ++ "..."

def additionalMsg (count : Nat) (preview : String) : String :=
  "Additional records (in File 2 but not File 1): " ++ toString count ++
    " records. IDs: " ++ preview ++ "..."

def skipColsMsg (cols : List String) : String :=
  "Skipping comparison for mismatched columns: " ++ pyListRepr cols

def cellDiffMsg (keyVal col v1 v2 : String) : String :=
  "   Key " ++ pyRepr keyVal ++ ", Col " ++ pyRepr col ++ ": " ++ pyRepr v1 ++
    " != " ++ pyRepr v2

def posErrMsg : String :=
  "Error during record comparison: Can only compare identically-labeled DataFrame objects"

/-! ### Pipeline phases

Each phase of `run_comparison` is embedded as a pure function returning the
flag the Python method returns together with the lists of messages and
structured differences it appends, in append order.  `run_comparison`
concatenates them exactly as the mutable instance lists accumulate. -/

/-- The fatal key-column-presence error messages, in the order the
`for k in self.key_columns` loop appends them. -/
def keyErrsOf (kc : List String) (t1 t2 : Table) : List String :=
  kc.flatMap fun k =>
    (if decide (k ∈ t1.header) then [] else [keyColMsg k "File 1"]) ++
    (if decide (k ∈ t2.header) then [] else [keyColMsg k "File 2"])

/-- The non-fatal header count/name comparison:
`(headers_match, differences, structured_differences)`. -/
def headerCompareOut (t1 t2 : Table) : Bool × List String × List SDiff :=
  let h1 := t1.header
  let h2 := t2.header
  let cnt := decide (h1.length ≠ h2.length)
  let nm := decide (h1 ≠ h2)
  ((!cnt && !nm),
   (if cnt then [hdrCountMsg h1.length h2.length] else []) ++
     (if nm then [hdrNameMsg h1 h2] else []),
   (if cnt then [SDiff.header_count_mismatch h1.length h2.length] else []) ++
     (if nm then [SDiff.header_name_mismatch h1 h2] else []))

/-- `validate_headers`: key-column presence (fatal, early return) and the
non-fatal header count/name comparison.  Returns
`(headers_match, errors, differences, structured_differences)`. -/
def validateHeadersOut (kc : List String) (t1 t2 : Table) :
    Bool × List String × List String × List SDiff :=
  if keyErrsOf kc t1 t2 ≠ [] then (false, keyErrsOf kc t1 t2, [], [])
  else
    ((headerCompareOut t1 t2).1, [], (headerCompareOut t1 t2).2.1,
     (headerCompareOut t1 t2).2.2)

/-- The rows `df.duplicated(subset=key_columns, keep=False)` marks: every row
whose key tuple occurs at least twice in its own table. -/
def dupRowsOf (kc : List String) (t : Table) : List Row :=
  t.rows.filter fun r =>
    decide (2 ≤ (keysOf kc t).countP fun x => decide (x = keyTuple kc r))

/-- The stringified first-occurrence-distinct ids of a duplicate-row set. -/
def dupIds (kc : List String) (dup : List Row) : List String :=
  match kc with
  | [k] => pdUnique (dup.map fun r => cellVal r k)
  | _ => (pdUnique (dup.map (keyTuple kc))).map pyTupleRepr

/-- `validate_key_uniqueness`: each source is scanned independently; a source
with duplicated keys contributes one fatal error message and one
`duplicate_keys` structured difference carrying the distinct offending ids and
every duplicate row in full.  Returns `(unique, errors, structured)`. -/
def validateKeyUniquenessOut (kc : List String) (f1 f2 : String)
    (t1 t2 : Table) : Bool × List String × List SDiff :=
  let dup1 := dupRowsOf kc t1
  let dup2 := dupRowsOf kc t2
  let e1 := if dup1 ≠ [] then
      [dupErrMsg "File 1" dup1.length (idsPreview (dupIds kc dup1))] else []
  let s1 := if dup1 ≠ [] then
      [SDiff.duplicate_keys f1 dup1.length (dupIds kc dup1) dup1] else []
  let e2 := if dup2 ≠ [] then
      [dupErrMsg "File 2" dup2.length (idsPreview (dupIds kc dup2))] else []
  let s2 := if dup2 ≠ [] then
      [SDiff.duplicate_keys f2 dup2.length (dupIds kc dup2) dup2] else []
  (decide (dup1 = []) && decide (dup2 = []), e1 ++ e2, s1 ++ s2)

/-! ### Key-based record matcher (`_compare_with_key`)

The outer merge with indicator classifies File 1 rows whose key has no match
in File 2 as `left_only` (missing), File 2 rows with no match in File 1 as
`right_only` (additional), and pairs every File 1 row with every matching
File 2 row as `both`, in File 1 row order. -/

def missingRows (kc : List String) (t1 t2 : Table) : List Row :=
  t1.rows.filter fun r => decide (keyTuple kc r ∉ keysOf kc t2)

def additionalRows (kc : List String) (t1 t2 : Table) : List Row :=
  t2.rows.filter fun r => decide (keyTuple kc r ∉ keysOf kc t1)

def commonPairs (kc : List String) (t1 t2 : Table) : List (Row × Row) :=
  t1.rows.flatMap fun r1 =>
    (t2.rows.filter fun r2 => decide (keyTuple kc r2 = keyTuple kc r1)).map
      fun r2 => (r1, r2)

/-- The intersection of the two headers (the Python code builds a set; the
embedding fixes File 1 header order, which no claim depends on). -/
def commonColumns (t1 t2 : Table) : List String :=
  t1.header.filter fun c => decide (c ∈ t2.header)

/-- The common non-key columns whose cells are content-compared. -/
def columnsToCheck (kc : List String) (t1 t2 : Table) : List String :=
  (commonColumns t1 t2).filter fun c => decide (c ∉ kc)

/-- The symmetric difference of the headers, reported once as skipped. -/
def skippedCols (t1 t2 : Table) : List String :=
  (t1.header.filter fun c => decide (c ∉ t2.header)) ++
    (t2.header.filter fun c => decide (c ∉ t1.header))

/-- The key representation recorded in a `content_mismatch` entry. -/
def keyIdStr (kc : List String) (r : Row) : String :=
  match kc with
  | [k] => cellVal r k
  | _ => pyTupleRepr (keyTuple kc r)

/-- The common non-key columns on which a matched pair of rows differs after
`_normalize_val` normalization and exact string comparison. -/
def diffColsOf (nfc : String → String) (kc : List String) (t1 t2 : Table)
    (p : Row × Row) : List String :=
  (columnsToCheck kc t1 t2).filter fun c =>
    decide (normVal nfc (cellVal p.1 c) ≠ normVal nfc (cellVal p.2 c))

/-- The audit row rebuilt from a merged row for one side: key columns first,
then every common non-key column with the raw value of that side. -/
def fullRowFor (kc : List String) (cols : List String) (r : Row) : Row :=
  (kc.map fun k => (k, cellVal r k)) ++
    ((cols.filter fun c => decide (c ∉ kc)).map fun c => (c, cellVal r c))

/-- The `content_mismatch` entry of one matched pair, when any checked column
differs. -/
def contentEntry (nfc : String → String) (kc : List String) (t1 t2 : Table)
    (p : Row × Row) : Option SDiff :=
  let dc := diffColsOf nfc kc t1 t2 p
  if dc = [] then none
  else some (SDiff.content_mismatch (keyIdStr kc p.1) dc.length
    (dc.map fun c =>
      CellDiff.mk c (normVal nfc (cellVal p.1 c)) (normVal nfc (cellVal p.2 c)))
    (fullRowFor kc (commonColumns t1 t2) p.1)
    (fullRowFor kc (commonColumns t1 t2) p.2))

def contentEntries (nfc : String → String) (kc : List String)
    (t1 t2 : Table) : List SDiff :=
  (commonPairs kc t1 t2).filterMap (contentEntry nfc kc t1 t2)

def contentMsgs (nfc : String → String) (kc : List String)
    (t1 t2 : Table) : List String :=
  (commonPairs kc t1 t2).flatMap fun p =>
    (diffColsOf nfc kc t1 t2 p).map fun c =>
      cellDiffMsg (keyIdStr kc p.1) c (normVal nfc (cellVal p.1 c))
        (normVal nfc (cellVal p.2 c))

def isContentB : SDiff → Bool
  | SDiff.content_mismatch _ _ _ _ _ => true
  | SDiff.content_mismatch_positional _ _ => true
  | _ => false

/-- `_compare_with_key`, given the structured differences already accumulated
(the Python return value scans the whole instance list for content
mismatches).  Returns `(records_ok, differences, structured)`; this phase
appends no errors. -/
def compareWithKeyOut (nfc : String → String) (kc : List String)
    (f1 f2 : String) (t1 t2 : Table) (prior : List SDiff) :
    Bool × List String × List SDiff :=
  let miss := missingRows kc t1 t2
  let addl := additionalRows kc t1 t2
  let missD := if miss ≠ [] then
      [missingMsg miss.length (pyListRepr ((sortedIds kc miss).take 10))]
    else []
  let missS := if miss ≠ [] then
      [SDiff.missing_records f1 miss.length (sortedIds kc miss) miss] else []
  let addD := if addl ≠ [] then
      [additionalMsg addl.length (pyListRepr ((sortedIds kc addl).take 10))]
    else []
  let addS := if addl ≠ [] then
      [SDiff.additional_records f2 addl.length (sortedIds kc addl) addl]
    else []
  let skipD := if skippedCols t1 t2 ≠ [] then
      [skipColsMsg (skippedCols t1 t2)] else []
  let cD := if columnsToCheck kc t1 t2 ≠ [] then contentMsgs nfc kc t1 t2
    else []
  let cS := if columnsToCheck kc t1 t2 ≠ [] then contentEntries nfc kc t1 t2
    else []
  (decide (miss = []) && decide (addl = []) &&
     !((prior ++ missS ++ addS ++ cS).any isContentB),
   missD ++ addD ++ skipD ++ cD,
   missS ++ addS ++ cS)

/-! ### Positional comparison (`_compare_positional`) -/

/-- The shape `(row count, column count)` of a table. -/
def shapeOf (t : Table) : Nat × Nat := (t.rows.length, t.header.length)

/-- The changed cells of two identically-labeled tables, in the row-major
order `DataFrame.stack` produces. -/
def changedCells (t1 t2 : Table) : List PosCellDiff :=
  ((t1.rows.zip t2.rows).enum.flatMap fun pr =>
    t1.header.filterMap fun c =>
      if cellVal pr.2.1 c ≠ cellVal pr.2.2 c then
        some (PosCellDiff.mk pr.1 c (cellVal pr.2.1 c) (cellVal pr.2.2 c))
      else none)

/-- `_compare_positional`: shape check, `df1.equals(df2)`, and on inequality
the elementwise mask — which raises (caught, recorded as an error) unless the
two frames are identically labeled.  Returns
`(records_ok, errors, differences, structured)`. -/
def comparePositionalOut (t1 t2 : Table) :
    Bool × List String × List String × List SDiff :=
  let shapeD := if shapeOf t1 ≠ shapeOf t2 then
      [SDiff.shape_mismatch (shapeOf t1) (shapeOf t2)] else []
  let shapeM := if shapeOf t1 ≠ shapeOf t2 then
      ["Shape mismatch: File 1 " ++ toString (shapeOf t1).1 ++ "x" ++
        toString (shapeOf t1).2 ++ ", File 2 " ++ toString (shapeOf t2).1 ++
        "x" ++ toString (shapeOf t2).2] else []
  if t1 = t2 then (true, [], shapeM, shapeD)
  else if t1.header = t2.header ∧ t1.rows.length = t2.rows.length then
    let changed := changedCells t1 t2
    let found := if changed ≠ [] then
        ["Found " ++ toString changed.length ++ " specific cell differences."]
          ++ (changed.take 50).map fun d =>
            "   Row " ++ toString d.row ++ ", Col " ++ pyRepr d.col ++ ": " ++
              pyRepr d.file1_value ++ " != " ++ pyRepr d.file2_value
      else []
    let sd := if changed ≠ [] then
        [SDiff.content_mismatch_positional changed.length (changed.take 50)]
      else []
    (false, [], shapeM ++ ["Content mismatch found in records."] ++ found,
     shapeD ++ sd)
  else
    (false, [posErrMsg],
     shapeM ++ ["Content mismatch found in records."], shapeD)

/-! ### Replacement-character diagnostics (`_report_replacement_chars`) -/

/-- The number of cells of a table containing U+FFFD. -/
def replCellCount (t : Table) : Nat :=
  (t.rows.map fun r => r.countP fun p => p.2.data.contains replChar).sum

def warnOut (t : Table) (which : String) : List String × List SDiff :=
  if 0 < replCellCount t then
    ([replWarnMsg which (replCellCount t)],
     [SDiff.replacement_char_warning which (replCellCount t)])
  else ([], [])

/-! ### Summary statistics and the full pipeline -/

/-- The accumulator of the summary loop over `structured_differences`:
`missing_records` and `additional_records` are assigned (last entry wins, as
in the Python loop), content mismatches are counted. -/
structure Counts where
  mc : Nat
  ac : Nat
  cdr : Nat
deriving DecidableEq

def countsStep (c : Counts) : SDiff → Counts
  | SDiff.missing_records _ n _ _ => Counts.mk n c.ac c.cdr
  | SDiff.additional_records _ n _ _ => Counts.mk c.mc n c.cdr
  | SDiff.content_mismatch _ _ _ _ _ => Counts.mk c.mc c.ac (c.cdr + 1)
  | SDiff.content_mismatch_positional _ _ => Counts.mk c.mc c.ac (c.cdr + 1)
  | _ => c

def countsOf (l : List SDiff) : Counts := l.foldl countsStep (Counts.mk 0 0 0)

/-- Rounding of the exact ratio `a / b` (with `b > 0`) to the nearest integer,
ties to even: the idealization of the Python `round` builtin applied to
`matching_rows / universe * 100` at two decimal places, with the quotient
pre-scaled by 10000. -/
def halfEvenDiv (a : Int) (b : Nat) : Int :=
  let f := a.fdiv b
  let r := a - f * b
  if 2 * r < (b : Int) then f
  else if (b : Int) < 2 * r then f + 1
  else if f % 2 = 0 then f else f + 1

/-- `run_comparison` from the point where both files loaded successfully:
replacement-character diagnostics, header validation, the fatal key-column
check, key uniqueness, record comparison, summary statistics. -/
def runLoaded (nfc : String → String) (kc : List String) (f1 f2 : String)
    (t1 t2 : Table) : LoadedResult :=
  let w1 := warnOut t1 "File 1"
  let w2 := warnOut t2 "File 2"
  let hv := validateHeadersOut kc t1 t2
  let headersOk := hv.1
  let hErrs := hv.2.1
  let isFatal1 := decide (kc ≠ []) && hErrs.any fun e =>
    listInfix keyColToken.data e.data
  let uv := if !isFatal1 && decide (kc ≠ []) then
      validateKeyUniquenessOut kc f1 f2 t1 t2
    else (true, [], [])
  let isFatal2 := isFatal1 || (decide (kc ≠ []) && !uv.1)
  let priorS := w1.2 ++ w2.2 ++ hv.2.2.2 ++ uv.2.2
  let rc :=
    if !isFatal2 then
      if kc ≠ [] then
        let c := compareWithKeyOut nfc kc f1 f2 t1 t2 priorS
        (c.1, ([] : List String), c.2.1, c.2.2)
      else comparePositionalOut t1 t2
    else (false, [], [], [])
  let errors := hErrs ++ uv.2.1 ++ rc.2.1
  let diffs := w1.1 ++ w2.1 ++ hv.2.2.1 ++ rc.2.2.1
  let sdiffs := priorS ++ rc.2.2.2
  let cts := countsOf sdiffs
  let total1 := t1.rows.length
  let matchingRows : Int := if kc ≠ [] then (total1 : Int) - cts.mc else 0
  let univ := total1 + cts.ac
  let pct : Int := if 0 < univ then
      halfEvenDiv (matchingRows * 10000) univ
    else 0
  LoadedResult.mk
    (headersOk && rc.1 && decide (errors = []) && decide (diffs = []))
    (Summary.mk total1 t2.rows.length cts.mc cts.ac cts.cdr
      (matchingRows - cts.cdr) pct)
    errors diffs sdiffs

/-- The full `run_comparison` contract: a failed `load_files` returns the
short dictionary with no `summary` key; a successful load runs the pipeline
and returns the complete result. -/
def runComparison (nfc : String → String) (kc : List String) (f1 f2 : String)
    (lo : Except (List String) (Table × Table)) : CompResult :=
  match lo with
  | Except.error errs => CompResult.mk false none errs [] []
  | Except.ok (t1, t2) =>
    let r := runLoaded nfc kc f1 f2 t1 t2
    CompResult.mk r.success (some r.summary) r.errors r.differences
      r.structured_differences

/-! ### Robust CSV loading (`_read_csv_robust`)

A file on disk is abstracted as the mapping from encoding name to the
text it strictly decodes to under that encoding (`none` when strict decoding
fails).  `_read_csv_robust` walks the fixed encoding list with the configured
separator — the separator is never varied and no dialect sniffing is
attempted — and raises a `UnicodeDecodeError` enumerating every attempted
encoding only when all of them fail to decode. -/

structure FileModel where
  decode : String → Option String

inductive LoadError where
  | decodeError (tried : List String)
deriving DecidableEq

def pyEncodings : List String :=
  ["utf-8", "utf-8-sig", "cp1252", "latin1", "iso-8859-1"]

def splitChar (sep : Char) : List Char → List (List Char)
  | [] => [[]]
  | c :: cs =>
    match splitChar sep cs with
    | [] => [[c]]
    | w :: ws => if c = sep then [] :: w :: ws else (c :: w) :: ws

/-- The shallow model of `pd.read_csv(dtype=str, sep=sep)` on decoded text:
first line is the header, remaining non-blank lines are rows. -/
def parseCsv (sep : Char) (content : String) : Table :=
  match (splitChar (Char.ofNat 10) content.data).map String.mk with
  | [] => Table.mk [] []
  | h :: rest =>
    let header := (splitChar sep h.data).map String.mk
    Table.mk header
      ((rest.filter fun l => decide (l ≠ "")).map fun l =>
        header.zip ((splitChar sep l.data).map String.mk))

def firstDecode (fm : FileModel) : List String → Option String
  | [] => none
  | e :: es =>
    match fm.decode e with
    | some c => some c
    | none => firstDecode fm es

def readCsvRobust (fm : FileModel) (sep : Char) : Except LoadError Table :=
  match firstDecode fm pyEncodings with
  | some c => Except.ok (parseCsv sep c)
  | none => Except.error (LoadError.decodeError pyEncodings)

/-! ### Observation helpers and concrete inputs

Extractors over the structured differences of a result, used to state the claims,
and the concrete tables the witnesses and counterexamples run the engine
on. -/

/-- Entries produced by the record-matching / content-comparison phase
(`compare_records`), as opposed to loading, header or uniqueness entries. -/
def isMatchPhase : SDiff → Bool
  | SDiff.missing_records _ _ _ _ => true
  | SDiff.additional_records _ _ _ _ => true
  | SDiff.content_mismatch _ _ _ _ _ => true
  | SDiff.content_mismatch_positional _ _ => true
  | SDiff.shape_mismatch _ _ => true
  | _ => false

/-- All ids carried by `missing_records` entries. -/
def missIdsOf (l : List SDiff) : List String :=
  (l.filterMap fun d =>
    match d with
    | SDiff.missing_records _ _ ids _ => some ids
    | _ => none).flatten

/-- All ids carried by `additional_records` entries. -/
def addIdsOf (l : List SDiff) : List String :=
  (l.filterMap fun d =>
    match d with
    | SDiff.additional_records _ _ ids _ => some ids
    | _ => none).flatten

/-- The `content_mismatch` entries of a structured-difference list. -/
def contentOf (l : List SDiff) : List SDiff := l.filter isContentB

/-- The structured differences accumulated before the matcher runs on a
clean key-based run (replacement warnings and header differences; the
uniqueness checker contributes nothing when both key sets are unique). -/
def priorClean (t1 t2 : Table) : List SDiff :=
  (warnOut t1 "File 1").2 ++ (warnOut t2 "File 2").2 ++
    (headerCompareOut t1 t2).2.2 ++ []

/-- Entries that assign the `missing_records` or `additional_records` summary
counters. -/
def touchesMA : SDiff → Bool
  | SDiff.missing_records _ _ _ _ => true
  | SDiff.additional_records _ _ _ _ => true
  | _ => false

/-- The identity on strings: the NFC instantiation used by witnesses (real
NFC also fixes every string the witnesses use). -/
def idNfc : String → String := fun s => s

def exTableA : Table :=
  Table.mk ["id", "val"] [[("id", "1"), ("val", "10")], [("id", "2"), ("val", "20")]]

def exTableB : Table :=
  Table.mk ["id", "val"] [[("id", "1"), ("val", "10")], [("id", "3"), ("val", "30")]]

def exOneA : Table := Table.mk ["id", "val"] [[("id", "1"), ("val", "20")]]

def exOneB : Table := Table.mk ["id", "val"] [[("id", "1"), ("val", "21")]]

def exDup : Table :=
  Table.mk ["id", "val"] [[("id", "1"), ("val", "10")], [("id", "1"), ("val", "20")]]

def exDupB : Table :=
  Table.mk ["id", "val"] [[("id", "3"), ("val", "30")], [("id", "3"), ("val", "40")]]

def exEightyA : Table := Table.mk ["id", "x"] [[("id", "1"), ("x", "80")]]

def exEightyB : Table := Table.mk ["id", "x"] [[("id", "1"), ("x", "80.0")]]

/-- A file whose utf-8 text has no delimiter occurrence at all: every tried
encoding/delimiter combination yields a single-column header. -/
def exNoDelimFile : FileModel :=
  FileModel.mk fun e =>
    if e = "utf-8" then
      some ("abc" ++ String.singleton (Char.ofNat 10) ++ "xyz")
    else none

/-- A file no candidate encoding decodes. -/
def exUndecodableFile : FileModel := FileModel.mk fun _ => none

/-! ### Properties of the whitespace pipeline

The cleanup performed after NFC by `_normalize_unicode_cell` — NBSP
replacement, run collapapse, strip — produces strings whose only whitespace
characters are single interior ASCII spaces; such strings are fixed points of
the whole cleanup.  These facts drive the idempotence theorem. -/

/-- Adjacent characters are never both whitespace. -/
def noTwo (a b : Char) : Prop := ¬(isPySpace a = true ∧ isPySpace b = true)

theorem toFalse {b : Bool} (h : ¬b = true) : b = false := by
  cases b
  · rfl
  · exact absurd rfl h

theorem collapseWs_cons2 (c d : Char) (cs : List Char) :
    collapseWs (c :: d :: cs) =
      if isPySpace c then
        if isPySpace d then collapseWs (d :: cs)
        else ' ' :: collapseWs (d :: cs)
      else c :: collapseWs (d :: cs) := rfl

theorem collapseWs_cons_of_not (d : Char) (t : List Char)
    (h : isPySpace d = false) : collapseWs (d :: t) = d :: collapseWs t := by
  cases t with
  | nil => simp [collapseWs, h]
  | cons d' t' => rw [collapseWs_cons2, if_neg (by simp [h])]

theorem collapseWs_space_mem (l : List Char) :
    ∀ c ∈ collapseWs l, isPySpace c = true → c = ' ' := by
  induction l using collapseWs.induct with
  | case1 => intro c hc; simp [collapseWs] at hc
  | case2 c hsp =>
    intro x hx _; simp [collapseWs, hsp] at hx; simp [hx]
  | case3 c hsp =>
    intro x hx hxs
    simp [collapseWs, toFalse hsp] at hx
    subst hx
    exact absurd hxs (by simp [toFalse hsp])
  | case4 c d cs hc hd ih =>
    intro x hx hxs
    rw [collapseWs_cons2, if_pos hc, if_pos hd] at hx
    exact ih x hx hxs
  | case5 c d cs hc hd ih =>
    intro x hx hxs
    rw [collapseWs_cons2, if_pos hc, if_neg (by simp [toFalse hd])] at hx
    rcases List.mem_cons.mp hx with h | h
    · simp [h]
    · exact ih x h hxs
  | case6 c d cs hc ih =>
    intro x hx hxs
    rw [collapseWs_cons2, if_neg (by simp [toFalse hc])] at hx
    rcases List.mem_cons.mp hx with h | h
    · subst h; exact absurd hxs (by simp [toFalse hc])
    · exact ih x h hxs

theorem collapseWs_head_of_not (d : Char) (t : List Char)
    (h : isPySpace d = false) :
    (collapseWs (d :: t)).head? = some d := by
  rw [collapseWs_cons_of_not d t h]; rfl

theorem collapseWs_chain (l : List Char) :
    List.Chain' noTwo (collapseWs l) := by
  induction l using collapseWs.induct with
  | case1 => simp [collapseWs]
  | case2 c hsp => simp [collapseWs, hsp, List.chain'_singleton]
  | case3 c hsp =>
    simp [collapseWs, toFalse hsp, List.chain'_singleton]
  | case4 c d cs hc hd ih =>
    rw [collapseWs_cons2, if_pos hc, if_pos hd]; exact ih
  | case5 c d cs hc hd ih =>
    have hd' : isPySpace d = false := toFalse hd
    rw [collapseWs_cons2, if_pos hc, if_neg (by simp [hd'])]
    refine List.chain'_cons'.mpr ⟨?_, ih⟩
    intro y hy
    rw [collapseWs_head_of_not d cs hd'] at hy
    cases hy
    exact fun hand => by simp [hd'] at hand
  | case6 c d cs hc ih =>
    have hc' : isPySpace c = false := toFalse hc
    rw [collapseWs_cons2, if_neg (by simp [hc'])]
    refine List.chain'_cons'.mpr ⟨?_, ih⟩
    intro y _
    exact fun hand => by simp [hc'] at hand

theorem collapseWs_fixed (l : List Char)
    (hmem : ∀ c ∈ l, isPySpace c = true → c = ' ')
    (hch : List.Chain' noTwo l) : collapseWs l = l := by
  induction l using collapseWs.induct with
  | case1 => rfl
  | case2 c hsp =>
    have := hmem c (by simp) hsp
    simp [collapseWs, hsp, this]
  | case3 c hsp => simp [collapseWs, toFalse hsp]
  | case4 c d cs hc hd ih =>
    exact absurd ⟨hc, hd⟩ (List.chain'_cons.mp hch).1
  | case5 c d cs hc hd ih =>
    have hc' : c = ' ' := hmem c (by simp) hc
    have htail := ih (fun x hx => hmem x (List.mem_cons_of_mem _ hx))
      (List.chain'_cons.mp hch).2
    rw [collapseWs_cons2, if_pos hc, if_neg (by simp [toFalse hd]), htail, hc']
  | case6 c d cs hc ih =>
    have htail := ih (fun x hx => hmem x (List.mem_cons_of_mem _ hx))
      (List.chain'_cons.mp hch).2
    rw [collapseWs_cons2, if_neg (by simp [toFalse hc]), htail]

theorem replaceNbspL_fixed (l : List Char)
    (hmem : ∀ c ∈ l, isPySpace c = true → c = ' ') : replaceNbspL l = l := by
  unfold replaceNbspL
  have : ∀ c ∈ l, (if c = nbsp then ' ' else c) = id c := by
    intro c hc
    have hne : c ≠ nbsp := by
      intro h
      subst h
      have := hmem nbsp hc (by decide)
      exact absurd this (by decide)
    simp [hne]
  rw [List.map_congr_left this, List.map_id]

theorem dropWhile_head_false {p : Char → Bool} (l : List Char) :
    ∀ c, (l.dropWhile p).head? = some c → p c = false := by
  induction l with
  | nil => intro c hc; simp [List.dropWhile] at hc
  | cons a t ih =>
    intro c hc
    rw [List.dropWhile_cons] at hc
    by_cases hpa : p a = true
    · exact ih c (by simpa [hpa] using hc)
    · simp only [hpa, if_false, Bool.false_eq_true, List.head?_cons,
        Option.some.injEq] at hc
      subst hc
      exact Bool.not_eq_true _ ▸ hpa

theorem dropWhile_getLast?_of_ne_nil {p : Char → Bool} (l : List Char)
    (h : l.dropWhile p ≠ []) : (l.dropWhile p).getLast? = l.getLast? := by
  induction l with
  | nil => simp [List.dropWhile]
  | cons a t ih =>
    rw [List.dropWhile_cons]
    by_cases hpa : p a = true
    · rw [List.dropWhile_cons, if_pos hpa] at h
      have ht : t ≠ [] := by
        intro ht
        subst ht
        simp [List.dropWhile] at h
      rw [if_pos hpa, ih h]
      cases t with
      | nil => exact absurd rfl ht
      | cons b t' => rw [List.getLast?_cons_cons]
    · simp [hpa]

theorem pyStripL_fixed (l : List Char)
    (h1 : ∀ c, l.head? = some c → isPySpace c = false)
    (h2 : ∀ c, l.getLast? = some c → isPySpace c = false) :
    pyStripL l = l := by
  have hdrop : ∀ (m : List Char),
      (∀ c, m.head? = some c → isPySpace c = false) →
      m.dropWhile isPySpace = m := by
    intro m hm
    cases m with
    | nil => rfl
    | cons a t =>
      rw [List.dropWhile_cons, if_neg]
      simp [hm a rfl]
  unfold pyStripL
  rw [hdrop l h1]
  rw [hdrop l.reverse (fun c hc => h2 c (by rwa [List.head?_reverse] at hc))]
  exact List.reverse_reverse l

theorem pyStripL_subset (l : List Char) : pyStripL l ⊆ l := by
  intro c hc
  unfold pyStripL at hc
  rw [List.mem_reverse] at hc
  have hc2 := (List.dropWhile_sublist (l := (l.dropWhile isPySpace).reverse)
    isPySpace).subset hc
  rw [List.mem_reverse] at hc2
  exact (List.dropWhile_sublist isPySpace).subset hc2

theorem noTwo_flip {a b : Char} (h : noTwo a b) : flip noTwo a b :=
  fun hand => h ⟨hand.2, hand.1⟩

theorem pyStripL_chain (l : List Char) (h : List.Chain' noTwo l) :
    List.Chain' noTwo (pyStripL l) := by
  unfold pyStripL
  have h1 : List.Chain' noTwo (l.dropWhile isPySpace) :=
    h.suffix (List.dropWhile_suffix isPySpace)
  have h2 : List.Chain' noTwo (l.dropWhile isPySpace).reverse :=
    List.chain'_reverse.mpr (h1.imp fun _ _ => noTwo_flip)
  have h3 : List.Chain' noTwo
      ((l.dropWhile isPySpace).reverse.dropWhile isPySpace) :=
    h2.suffix (List.dropWhile_suffix isPySpace)
  exact List.chain'_reverse.mpr (h3.imp fun _ _ => noTwo_flip)

theorem pyStripL_head (l : List Char) :
    ∀ c, (pyStripL l).head? = some c → isPySpace c = false := by
  intro c hc
  unfold pyStripL at hc
  rw [List.head?_reverse] at hc
  by_cases hnil : (l.dropWhile isPySpace).reverse.dropWhile isPySpace = []
  · rw [hnil] at hc; simp at hc
  · rw [dropWhile_getLast?_of_ne_nil _ hnil, List.getLast?_reverse] at hc
    exact dropWhile_head_false _ c hc

theorem pyStripL_getLast (l : List Char) :
    ∀ c, (pyStripL l).getLast? = some c → isPySpace c = false := by
  intro c hc
  unfold pyStripL at hc
  rw [List.getLast?_reverse] at hc
  exact dropWhile_head_false _ c hc

/-- The character list of a cleaned cell is a fixed point of the whole
whitespace cleanup. -/
theorem cleanup_fixed (u : List Char) :
    pyStripL (collapseWs (replaceNbspL
      (pyStripL (collapseWs u)))) = pyStripL (collapseWs u) := by
  set w := pyStripL (collapseWs u) with hw
  have hmem : ∀ c ∈ w, isPySpace c = true → c = ' ' := by
    intro c hc
    exact collapseWs_space_mem u c (pyStripL_subset _ hc)
  have hch : List.Chain' noTwo w := pyStripL_chain _ (collapseWs_chain u)
  rw [replaceNbspL_fixed w hmem, collapseWs_fixed w hmem hch,
    pyStripL_fixed w (pyStripL_head _) (pyStripL_getLast _)]

/-! ### Pipeline lemmas -/

theorem keyErrsOf_nil {kc : List String} {t1 t2 : Table}
    (h1 : ∀ k ∈ kc, k ∈ t1.header) (h2 : ∀ k ∈ kc, k ∈ t2.header) :
    keyErrsOf kc t1 t2 = [] := by
  unfold keyErrsOf
  rw [List.flatMap_eq_nil_iff]
  intro k hk
  simp [h1 k hk, h2 k hk]

theorem validateHeadersOut_clean {kc : List String} {t1 t2 : Table}
    (hke : keyErrsOf kc t1 t2 = []) :
    validateHeadersOut kc t1 t2 =
      ((headerCompareOut t1 t2).1, [], (headerCompareOut t1 t2).2.1,
       (headerCompareOut t1 t2).2.2) := by
  unfold validateHeadersOut
  rw [hke]
  simp

theorem headerCompareOut_of_eq {t1 t2 : Table} (h : t1.header = t2.header) :
    headerCompareOut t1 t2 = (true, [], []) := by
  unfold headerCompareOut
  simp [h]

theorem countP_eq_one_of_nodup {α : Type} [DecidableEq α] {l : List α}
    (hnd : l.Nodup) {a : α} (ha : a ∈ l) :
    l.countP (fun x => decide (x = a)) = 1 := by
  induction l with
  | nil => cases ha
  | cons b t ih =>
    rw [List.nodup_cons] at hnd
    rcases List.mem_cons.mp ha with h | h
    · subst h
      rw [List.countP_cons]
      have h0 : t.countP (fun x => decide (x = a)) = 0 := by
        rw [List.countP_eq_zero]
        intro x hx
        simp only [decide_eq_true_iff]
        intro he
        exact hnd.1 (he ▸ hx)
      simp [h0]
    · rw [List.countP_cons]
      have hba : ¬(decide (b = a) = true) := by
        simp only [decide_eq_true_iff]
        intro he
        exact hnd.1 (he ▸ h)
      simp [ih hnd.2 h, hba]

theorem two_le_countP_of_not_nodup {α : Type} [DecidableEq α] {l : List α}
    (h : ¬l.Nodup) : ∃ a ∈ l, 2 ≤ l.countP (fun x => decide (x = a)) := by
  induction l with
  | nil => exact absurd List.nodup_nil h
  | cons b t ih =>
    rw [List.nodup_cons] at h
    push_neg at h
    by_cases hb : b ∈ t
    · refine ⟨b, by simp, ?_⟩
      rw [List.countP_cons]
      have h1 : 0 < t.countP (fun x => decide (x = b)) := by
        rw [List.countP_pos_iff]
        exact ⟨b, hb, by simp⟩
      rw [if_pos (by simp)]
      omega
    · obtain ⟨a, hat, ha2⟩ := ih (h hb)
      refine ⟨a, List.mem_cons_of_mem _ hat, ?_⟩
      rw [List.countP_cons]
      omega

theorem dupRowsOf_nil_of_nodup {kc : List String} {t : Table}
    (h : (keysOf kc t).Nodup) : dupRowsOf kc t = [] := by
  unfold dupRowsOf
  rw [List.filter_eq_nil_iff]
  intro r hr
  simp only [decide_eq_true_iff]
  intro h2
  have hm : keyTuple kc r ∈ keysOf kc t := List.mem_map_of_mem _ hr
  have := countP_eq_one_of_nodup h hm
  omega

theorem dupRowsOf_ne_nil {kc : List String} {t : Table}
    (h : ¬(keysOf kc t).Nodup) : dupRowsOf kc t ≠ [] := by
  obtain ⟨a, hmem, ha⟩ := two_le_countP_of_not_nodup h
  obtain ⟨r, hr, hrk⟩ := List.mem_map.mp hmem
  intro hnil
  have hin : r ∈ dupRowsOf kc t := by
    unfold dupRowsOf
    rw [List.mem_filter]
    refine ⟨hr, ?_⟩
    rw [decide_eq_true_iff, hrk]
    exact ha
  rw [hnil] at hin
  exact absurd hin (List.not_mem_nil r)

theorem validateKeyUniquenessOut_clean {kc : List String} {f1 f2 : String}
    {t1 t2 : Table} (h1 : dupRowsOf kc t1 = []) (h2 : dupRowsOf kc t2 = []) :
    validateKeyUniquenessOut kc f1 f2 t1 t2 = (true, [], []) := by
  unfold validateKeyUniquenessOut
  simp [h1, h2]

theorem filter_eq_of_nodup_map {α β : Type} [DecidableEq β]
    (f : α → β) (l : List α) (hnd : (l.map f).Nodup) (a : α) (ha : a ∈ l) :
    l.filter (fun x => decide (f x = f a)) = [a] := by
  induction l with
  | nil => cases ha
  | cons b l ih =>
    rw [List.map_cons, List.nodup_cons] at hnd
    rcases List.mem_cons.mp ha with h | h
    · subst h
      rw [List.filter_cons, if_pos (by simp)]
      have hnil : l.filter (fun x => decide (f x = f a)) = [] := by
        rw [List.filter_eq_nil_iff]
        intro x hx
        simp only [decide_eq_true_iff]
        intro he
        exact hnd.1 (he ▸ List.mem_map_of_mem f hx)
      rw [hnil]
    · have hba : ¬(decide (f b = f a) = true) := by
        simp only [decide_eq_true_iff]
        intro he
        exact hnd.1 (he.symm ▸ List.mem_map_of_mem f h)
      rw [List.filter_cons, if_neg hba, ih hnd.2 h]

theorem missingRows_self_nil (kc : List String) (t : Table) :
    missingRows kc t t = [] := by
  unfold missingRows
  rw [List.filter_eq_nil_iff]
  intro r hr
  simp only [decide_eq_true_iff]
  intro hni
  exact hni (List.mem_map_of_mem _ hr)

theorem flatMap_singleton_eq_map {α β : Type} (f : α → List β) (g : α → β)
    (l : List α) (h : ∀ a ∈ l, f a = [g a]) : l.flatMap f = l.map g := by
  induction l with
  | nil => rfl
  | cons a t ih =>
    rw [List.flatMap_cons, h a (by simp), List.map_cons,
      ih (fun x hx => h x (List.mem_cons_of_mem _ hx)), List.singleton_append]

theorem commonPairs_self (kc : List String) (t : Table)
    (hnd : (keysOf kc t).Nodup) :
    commonPairs kc t t = t.rows.map (fun r => (r, r)) := by
  unfold commonPairs
  refine flatMap_singleton_eq_map _ _ _ ?_
  intro r hr
  rw [filter_eq_of_nodup_map (keyTuple kc) t.rows hnd r hr]
  rfl

theorem diffColsOf_self (nfc : String → String) (kc : List String)
    (t1 t2 : Table) (r : Row) : diffColsOf nfc kc t1 t2 (r, r) = [] := by
  unfold diffColsOf
  rw [List.filter_eq_nil_iff]
  intro c _
  simp

theorem contentEntries_self (nfc : String → String) (kc : List String)
    (t : Table) (hnd : (keysOf kc t).Nodup) :
    contentEntries nfc kc t t = [] := by
  unfold contentEntries
  rw [commonPairs_self kc t hnd, List.filterMap_eq_nil_iff]
  intro p hp
  obtain ⟨r, _, rfl⟩ := List.mem_map.mp hp
  unfold contentEntry
  rw [diffColsOf_self]
  simp

theorem contentMsgs_self (nfc : String → String) (kc : List String)
    (t : Table) (hnd : (keysOf kc t).Nodup) :
    contentMsgs nfc kc t t = [] := by
  unfold contentMsgs
  rw [commonPairs_self kc t hnd, List.flatMap_eq_nil_iff]
  intro p hp
  obtain ⟨r, _, rfl⟩ := List.mem_map.mp hp
  rw [diffColsOf_self]
  rfl

theorem skippedCols_nil {t1 t2 : Table} (h : t1.header = t2.header) :
    skippedCols t1 t2 = [] := by
  unfold skippedCols
  rw [h]
  simp [List.filter_eq_nil_iff]

theorem sortedIds_nil (kc : List String) : sortedIds kc [] = [] := by
  rcases kc with _ | ⟨k, _ | ⟨k2, ks⟩⟩ <;> rfl

/-! ### Counting lemmas for the summary loop -/

theorem countsStep_of_not_match {d : SDiff} (h : isMatchPhase d = false)
    (c : Counts) : countsStep c d = c := by
  cases d <;> first | rfl | (exfalso; simp [isMatchPhase] at h)

theorem foldl_counts_matchfree (l : List SDiff)
    (h : ∀ d ∈ l, isMatchPhase d = false) (c : Counts) :
    List.foldl countsStep c l = c := by
  induction l generalizing c with
  | nil => rfl
  | cons d t ih =>
    rw [List.foldl_cons, countsStep_of_not_match (h d (by simp))]
    exact ih (fun x hx => h x (List.mem_cons_of_mem _ hx)) c

theorem countsOf_append_matchfree (pre post : List SDiff)
    (h : ∀ d ∈ pre, isMatchPhase d = false) :
    countsOf (pre ++ post) = countsOf post := by
  unfold countsOf
  rw [List.foldl_append, foldl_counts_matchfree pre h]

theorem countsStep_ma {d : SDiff} (h : touchesMA d = false) (c : Counts) :
    (countsStep c d).mc = c.mc ∧ (countsStep c d).ac = c.ac := by
  cases d <;> first | exact ⟨rfl, rfl⟩ | (exfalso; simp [touchesMA] at h)

theorem foldl_ma_free (l : List SDiff) (h : ∀ d ∈ l, touchesMA d = false)
    (c : Counts) :
    (List.foldl countsStep c l).mc = c.mc ∧
      (List.foldl countsStep c l).ac = c.ac := by
  induction l generalizing c with
  | nil => exact ⟨rfl, rfl⟩
  | cons d t ih =>
    rw [List.foldl_cons]
    have hd := countsStep_ma (h d (by simp)) c
    have ht := ih (fun x hx => h x (List.mem_cons_of_mem _ hx)) (countsStep c d)
    exact ⟨ht.1.trans hd.1, ht.2.trans hd.2⟩

theorem content_not_ma {d : SDiff} (h : isContentB d = true) :
    touchesMA d = false := by
  cases d <;> first | rfl | (exfalso; simp [isContentB] at h)

theorem content_is_match {d : SDiff} (h : isContentB d = true) :
    isMatchPhase d = true := by
  cases d <;> first | rfl | (exfalso; simp [isContentB] at h)

/-- The summary loop over the entries the matcher appended reads back exactly
the missing and additional row counts. -/
theorem countsOf_matcher_ma (f1 f2 : String) (miss addl : List Row)
    (ids1 ids2 : List String) (fr1 fr2 : List Row) (cS : List SDiff)
    (hcS : ∀ d ∈ cS, touchesMA d = false) :
    (countsOf
      ((if miss ≠ [] then [SDiff.missing_records f1 miss.length ids1 fr1]
          else []) ++
       (if addl ≠ [] then [SDiff.additional_records f2 addl.length ids2 fr2]
          else []) ++ cS)).mc = miss.length ∧
    (countsOf
      ((if miss ≠ [] then [SDiff.missing_records f1 miss.length ids1 fr1]
          else []) ++
       (if addl ≠ [] then [SDiff.additional_records f2 addl.length ids2 fr2]
          else []) ++ cS)).ac = addl.length := by
  unfold countsOf
  by_cases h1 : miss = [] <;> by_cases h2 : addl = [] <;>
    simp only [h1, h2, ne_eq, not_true_eq_false, not_false_eq_true, if_true,
      if_false, ite_true, ite_false, List.nil_append, List.singleton_append,
      List.foldl_cons, List.foldl_nil] <;>
    first
    | (constructor <;>
        [exact ((foldl_ma_free cS hcS _).1.trans (by simp [h1, countsStep]));
         exact ((foldl_ma_free cS hcS _).2.trans (by simp [h2, countsStep]))])

/-! ### Phase kind lemmas -/

theorem warnOut_matchfree (t : Table) (w : String) :
    ∀ d ∈ (warnOut t w).2, isMatchPhase d = false := by
  intro d hd
  unfold warnOut at hd
  by_cases h : 0 < replCellCount t
  · rw [if_pos h] at hd
    rw [List.mem_singleton.mp hd]
    rfl
  · rw [if_neg h] at hd
    cases hd

theorem headerCompareOut_matchfree (t1 t2 : Table) :
    ∀ d ∈ (headerCompareOut t1 t2).2.2, isMatchPhase d = false := by
  intro d hd
  simp only [headerCompareOut] at hd
  rcases List.mem_append.mp hd with h | h
  · split at h
    · rw [List.mem_singleton.mp h]; rfl
    · cases h
  · split at h
    · rw [List.mem_singleton.mp h]; rfl
    · cases h

theorem uniqOut_matchfree (kc : List String) (f1 f2 : String) (t1 t2 : Table) :
    ∀ d ∈ (validateKeyUniquenessOut kc f1 f2 t1 t2).2.2,
      isMatchPhase d = false := by
  intro d hd
  unfold validateKeyUniquenessOut at hd
  simp only at hd
  rcases List.mem_append.mp hd with h | h
  · by_cases hc : dupRowsOf kc t1 = []
    · simp [hc] at h
    · simp [hc] at h
      rw [h]
      rfl
  · by_cases hc : dupRowsOf kc t2 = []
    · simp [hc] at h
    · simp [hc] at h
      rw [h]
      rfl

theorem contentEntries_all_content (nfc : String → String) (kc : List String)
    (t1 t2 : Table) :
    ∀ d ∈ contentEntries nfc kc t1 t2, isContentB d = true := by
  intro d hd
  obtain ⟨p, _, he⟩ := List.mem_filterMap.mp hd
  unfold contentEntry at he
  by_cases hdc : diffColsOf nfc kc t1 t2 p = []
  · rw [if_pos hdc] at he
    cases he
  · rw [if_neg hdc] at he
    rw [← Option.some.inj he]
    rfl

/-! ### Extractor lemmas -/

theorem missIdsOf_append (a b : List SDiff) :
    missIdsOf (a ++ b) = missIdsOf a ++ missIdsOf b := by
  unfold missIdsOf
  rw [List.filterMap_append, List.flatten_append]

theorem addIdsOf_append (a b : List SDiff) :
    addIdsOf (a ++ b) = addIdsOf a ++ addIdsOf b := by
  unfold addIdsOf
  rw [List.filterMap_append, List.flatten_append]

theorem contentOf_append (a b : List SDiff) :
    contentOf (a ++ b) = contentOf a ++ contentOf b := by
  unfold contentOf
  rw [List.filter_append]

theorem missIdsOf_matchfree (l : List SDiff)
    (h : ∀ d ∈ l, isMatchPhase d = false) : missIdsOf l = [] := by
  unfold missIdsOf
  have hfm : l.filterMap (fun d =>
      match d with
      | SDiff.missing_records _ _ ids _ => some ids
      | _ => none) = [] := by
    rw [List.filterMap_eq_nil_iff]
    intro d hd
    have := h d hd
    cases d <;> first | rfl | simp [isMatchPhase] at this
  rw [hfm]
  rfl

theorem addIdsOf_matchfree (l : List SDiff)
    (h : ∀ d ∈ l, isMatchPhase d = false) : addIdsOf l = [] := by
  unfold addIdsOf
  have hfm : l.filterMap (fun d =>
      match d with
      | SDiff.additional_records _ _ ids _ => some ids
      | _ => none) = [] := by
    rw [List.filterMap_eq_nil_iff]
    intro d hd
    have := h d hd
    cases d <;> first | rfl | simp [isMatchPhase] at this
  rw [hfm]
  rfl

theorem contentOf_matchfree (l : List SDiff)
    (h : ∀ d ∈ l, isMatchPhase d = false) : contentOf l = [] := by
  unfold contentOf
  rw [List.filter_eq_nil_iff]
  intro d hd hc
  exact absurd ((content_is_match hc).symm.trans (h d hd)) (by simp)

theorem missIdsOf_content (l : List SDiff)
    (h : ∀ d ∈ l, isContentB d = true) : missIdsOf l = [] := by
  unfold missIdsOf
  have hfm : l.filterMap (fun d =>
      match d with
      | SDiff.missing_records _ _ ids _ => some ids
      | _ => none) = [] := by
    rw [List.filterMap_eq_nil_iff]
    intro d hd
    have := h d hd
    cases d <;> first | rfl | simp [isContentB] at this
  rw [hfm]
  rfl

theorem addIdsOf_content (l : List SDiff)
    (h : ∀ d ∈ l, isContentB d = true) : addIdsOf l = [] := by
  unfold addIdsOf
  have hfm : l.filterMap (fun d =>
      match d with
      | SDiff.additional_records _ _ ids _ => some ids
      | _ => none) = [] := by
    rw [List.filterMap_eq_nil_iff]
    intro d hd
    have := h d hd
    cases d <;> first | rfl | simp [isContentB] at this
  rw [hfm]
  rfl

/-- The ids recorded by the matcher entries are exactly the sorted missing
ids (and dually), regardless of emptiness. -/
theorem missIdsOf_matcher (f1 f2 : String) (kc : List String)
    (miss addl : List Row) (ids2 : List String) (fr1 fr2 : List Row)
    (cS : List SDiff) (hcS : ∀ d ∈ cS, isContentB d = true) :
    missIdsOf
      ((if miss ≠ [] then
          [SDiff.missing_records f1 miss.length (sortedIds kc miss) fr1]
        else []) ++
       (if addl ≠ [] then
          [SDiff.additional_records f2 addl.length ids2 fr2] else []) ++ cS) =
      sortedIds kc miss := by
  have hc : missIdsOf cS = [] := missIdsOf_content cS hcS
  by_cases h1 : miss = [] <;> by_cases h2 : addl = [] <;>
    simp only [h1, h2, ne_eq, not_true_eq_false, not_false_eq_true, if_true,
      if_false, ite_true, ite_false, List.nil_append, missIdsOf_append, hc,
      sortedIds_nil] <;>
    simp [missIdsOf]

theorem addIdsOf_matcher (f1 f2 : String) (kc : List String)
    (miss addl : List Row) (ids1 : List String) (fr1 fr2 : List Row)
    (cS : List SDiff) (hcS : ∀ d ∈ cS, isContentB d = true) :
    addIdsOf
      ((if miss ≠ [] then
          [SDiff.missing_records f1 miss.length ids1 fr1] else []) ++
       (if addl ≠ [] then
          [SDiff.additional_records f2 addl.length (sortedIds kc addl) fr2]
        else []) ++ cS) = sortedIds kc addl := by
  have hc : addIdsOf cS = [] := addIdsOf_content cS hcS
  by_cases h1 : miss = [] <;> by_cases h2 : addl = [] <;>
    simp only [h1, h2, ne_eq, not_true_eq_false, not_false_eq_true, if_true,
      if_false, ite_true, ite_false, List.nil_append, addIdsOf_append, hc,
      sortedIds_nil] <;>
    simp [addIdsOf]

theorem additionalRows_self_nil (kc : List String) (t : Table) :
    additionalRows kc t t = [] := by
  unfold additionalRows
  rw [List.filter_eq_nil_iff]
  intro r hr
  simp only [decide_eq_true_iff]
  intro hni
  exact hni (List.mem_map_of_mem _ hr)

theorem warnOut_of_no_repl {t : Table} (w : String)
    (h : replCellCount t = 0) : warnOut t w = ([], []) := by
  unfold warnOut
  simp [h]

theorem comparePositionalOut_self (t : Table) :
    comparePositionalOut t t = (true, [], [], []) := by
  unfold comparePositionalOut
  simp

theorem compareWithKeyOut_self (nfc : String → String) (kc : List String)
    (f1 f2 : String) (t : Table) (hnd : (keysOf kc t).Nodup)
    (prior : List SDiff) (hp : ∀ d ∈ prior, isContentB d = false) :
    compareWithKeyOut nfc kc f1 f2 t t prior = (true, [], []) := by
  unfold compareWithKeyOut
  have hm := missingRows_self_nil kc t
  have ha := additionalRows_self_nil kc t
  have hs := @skippedCols_nil t t rfl
  have hce := contentEntries_self nfc kc t hnd
  have hcm := contentMsgs_self nfc kc t hnd
  have hany : (prior ++ [] ++ [] ++
      (if columnsToCheck kc t t ≠ [] then contentEntries nfc kc t t
        else [])).any isContentB = false := by
    have heq : prior ++ [] ++ [] ++
        (if columnsToCheck kc t t ≠ [] then contentEntries nfc kc t t
          else []) = prior := by
      simp [hce]
    rw [heq, List.any_eq_false]
    intro d hd
    simp [hp d hd]
  simp [hm, ha, hs, hce, hcm, hany]
  exact hp

theorem contentOf_matcher (f1 f2 : String) (miss addl : List Row)
    (ids1 ids2 : List String) (fr1 fr2 : List Row) (cS : List SDiff)
    (hcS : ∀ d ∈ cS, isContentB d = true) :
    contentOf
      ((if miss ≠ [] then
          [SDiff.missing_records f1 miss.length ids1 fr1] else []) ++
       (if addl ≠ [] then
          [SDiff.additional_records f2 addl.length ids2 fr2] else []) ++ cS) =
      cS := by
  have hc : contentOf cS = cS := List.filter_eq_self.mpr hcS
  by_cases h1 : miss = [] <;> by_cases h2 : addl = [] <;>
    simp only [h1, h2, ne_eq, not_true_eq_false, not_false_eq_true, if_true,
      if_false, ite_true, ite_false, List.nil_append, contentOf_append, hc] <;>
    simp [contentOf, isContentB]

/-! ### Unfolding lemmas for `runLoaded` -/

/-- The summary of every run is computed from the accumulated structured
differences by the counting loop, with the percentage derived from
`matching_rows = total_rows_file1 - missing_count` in key mode and `0`
otherwise. -/
theorem runLoaded_summary (nfc : String → String) (kc : List String)
    (f1 f2 : String) (t1 t2 : Table) :
    (runLoaded nfc kc f1 f2 t1 t2).summary =
      Summary.mk t1.rows.length t2.rows.length
        (countsOf (runLoaded nfc kc f1 f2 t1 t2).structured_differences).mc
        (countsOf (runLoaded nfc kc f1 f2 t1 t2).structured_differences).ac
        (countsOf (runLoaded nfc kc f1 f2 t1 t2).structured_differences).cdr
        ((if kc ≠ [] then (t1.rows.length : Int) -
            (countsOf (runLoaded nfc kc f1 f2 t1 t2).structured_differences).mc
          else 0) -
          (countsOf (runLoaded nfc kc f1 f2 t1 t2).structured_differences).cdr)
        (if 0 < t1.rows.length +
            (countsOf (runLoaded nfc kc f1 f2 t1 t2).structured_differences).ac
          then
           halfEvenDiv
             ((if kc ≠ [] then (t1.rows.length : Int) -
                 (countsOf
                   (runLoaded nfc kc f1 f2 t1 t2).structured_differences).mc
               else 0) * 10000)
             (t1.rows.length +
               (countsOf
                 (runLoaded nfc kc f1 f2 t1 t2).structured_differences).ac)
         else 0) := rfl

/-- On a clean key-based run (keys present in both headers, no duplicate
keys) the pipeline reaches the matcher: the structured differences are the
pre-matcher entries followed by the matcher's, and no errors accumulate. -/
theorem runLoaded_key_clean (nfc : String → String) (kc : List String)
    (f1 f2 : String) (t1 t2 : Table) (hkc : kc ≠ [])
    (hke : keyErrsOf kc t1 t2 = [])
    (h1 : dupRowsOf kc t1 = []) (h2 : dupRowsOf kc t2 = []) :
    (runLoaded nfc kc f1 f2 t1 t2).structured_differences =
        priorClean t1 t2 ++
          (compareWithKeyOut nfc kc f1 f2 t1 t2 (priorClean t1 t2)).2.2 ∧
      (runLoaded nfc kc f1 f2 t1 t2).errors = [] ∧
      (runLoaded nfc kc f1 f2 t1 t2).differences =
        (warnOut t1 "File 1").1 ++ (warnOut t2 "File 2").1 ++
          (headerCompareOut t1 t2).2.1 ++
          (compareWithKeyOut nfc kc f1 f2 t1 t2 (priorClean t1 t2)).2.1 := by
  have hv := @validateHeadersOut_clean kc t1 t2 hke
  have hu := @validateKeyUniquenessOut_clean kc f1 f2 t1 t2 h1 h2
  refine ⟨?_, ?_, ?_⟩ <;>
    simp [runLoaded, hv, hu, hkc, priorClean]


/-! ### Positional path lemmas -/

theorem matchfree_ma {d : SDiff} (h : isMatchPhase d = false) :
    touchesMA d = false := by
  cases d <;> first | rfl | simp [isMatchPhase] at h

theorem priorClean_matchfree (t1 t2 : Table) :
    ∀ d ∈ priorClean t1 t2, isMatchPhase d = false := by
  intro d hd
  unfold priorClean at hd
  rw [List.append_nil] at hd
  rcases List.mem_append.mp hd with hd | hd
  · rcases List.mem_append.mp hd with hd | hd
    · exact warnOut_matchfree t1 "File 1" d hd
    · exact warnOut_matchfree t2 "File 2" d hd
  · exact headerCompareOut_matchfree t1 t2 d hd

theorem comparePositionalOut_ma_free (t1 t2 : Table) :
    ∀ d ∈ (comparePositionalOut t1 t2).2.2.2, touchesMA d = false := by
  intro d hd
  simp only [comparePositionalOut] at hd
  have hshape : ∀ x ∈ (if shapeOf t1 ≠ shapeOf t2 then
      [SDiff.shape_mismatch (shapeOf t1) (shapeOf t2)] else []),
      touchesMA x = false := by
    intro x hx
    split at hx
    · rw [List.mem_singleton.mp hx]; rfl
    · cases hx
  split at hd
  · exact hshape d hd
  · split at hd
    · rcases List.mem_append.mp hd with hd | hd
      · exact hshape d hd
      · split at hd
        · rw [List.mem_singleton.mp hd]; rfl
        · cases hd
    · exact hshape d hd

theorem halfEvenDiv_zero (b : Nat) : halfEvenDiv 0 b = 0 := by
  unfold halfEvenDiv
  simp only [Int.zero_fdiv, Int.zero_mul, Int.mul_zero, Int.sub_zero,
    Int.zero_sub, Int.neg_zero, mul_zero, zero_mul, sub_zero]
  split_ifs <;> omega

/-- On a positional run the pipeline always reaches `_compare_positional`. -/
theorem runLoaded_positional (nfc : String → String) (f1 f2 : String)
    (t1 t2 : Table) :
    (runLoaded nfc [] f1 f2 t1 t2).structured_differences =
        priorClean t1 t2 ++ (comparePositionalOut t1 t2).2.2.2 ∧
      (runLoaded nfc [] f1 f2 t1 t2).errors =
        (comparePositionalOut t1 t2).2.1 ∧
      (runLoaded nfc [] f1 f2 t1 t2).differences =
        (warnOut t1 "File 1").1 ++ (warnOut t2 "File 2").1 ++
          (headerCompareOut t1 t2).2.1 ++
          (comparePositionalOut t1 t2).2.2.1 := by
  have hv := @validateHeadersOut_clean [] t1 t2 rfl
  refine ⟨?_, ?_, ?_⟩ <;> simp [runLoaded, hv, priorClean]


/-! ### Claim C9 -/

/-- C9: the cell-normalization function of the engine — strip surrounding
whitespace, canonical Unicode composition, NBSP to regular space, collapse of
internal whitespace runs — is idempotent: normalizing an already-normalized
string returns it unchanged.  The NFC step is abstract; the hypothesis is the
Unicode fact that NFC fixes the output of the pipeline (the whitespace
cleanup of an NFC string only substitutes and removes non-combining
characters, so the result is still NFC-normalized). -/
theorem C9_normalization_idempotent (nfc : String → String)
    (hstab : ∀ s, nfc (normalizeUnicodeCell nfc s) = normalizeUnicodeCell nfc s)
    (s : String) :
    normalizeUnicodeCell nfc (normalizeUnicodeCell nfc s) =
      normalizeUnicodeCell nfc s := by
  conv_lhs => rw [normalizeUnicodeCell, hstab s]
  exact congrArg String.mk (cleanup_fixed (replaceNbspL (nfc s).data))

/-- Witness for C9 at a concrete string, with NFC instantiated by the
identity (which satisfies the stability hypothesis definitionally). -/
theorem C9_witness :
    normalizeUnicodeCell idNfc (normalizeUnicodeCell idNfc "  a   b ") =
      normalizeUnicodeCell idNfc "  a   b " :=
  C9_normalization_idempotent idNfc (fun _ => rfl) "  a   b "


/-! ### Claim C1 -/

/-- C1 (amended): the matching percentage of the summary is computed with
numerator `matching_rows = matching_rows_perfect + rows_with_differences`
(that is, `total_rows_a - missing_records` in key mode and `0` in positional
mode), not `matching_rows_perfect` itself, rounded half-to-even at two
decimals over the universe `total_rows_a + additional_records`, and is `0.0`
when that universe is zero; on the concrete scenario
A = [(1,10),(2,20)], B = [(1,10),(3,30)], key = [id] the summary is
missing 1, additional 1, rows_with_differences 0, matching_rows_perfect 1,
matching_percentage 33.33. -/
theorem C1_percentage_formula (nfc : String → String) (kc : List String)
    (f1 f2 : String) (t1 t2 : Table) :
    ((runLoaded nfc kc f1 f2 t1 t2).summary.matching_percentage_bp =
      if 0 < (runLoaded nfc kc f1 f2 t1 t2).summary.total_rows_file1 +
          (runLoaded nfc kc f1 f2 t1 t2).summary.additional_records then
        halfEvenDiv
          (((runLoaded nfc kc f1 f2 t1 t2).summary.matching_rows_perfect +
            ((runLoaded nfc kc f1 f2 t1 t2).summary.rows_with_differences :
              Int)) * 10000)
          ((runLoaded nfc kc f1 f2 t1 t2).summary.total_rows_file1 +
            (runLoaded nfc kc f1 f2 t1 t2).summary.additional_records)
      else 0) ∧
    (runLoaded idNfc ["id"] "a.csv" "b.csv" exTableA exTableB).summary =
      Summary.mk 2 2 1 1 0 1 3333 := by
  constructor
  · rw [runLoaded_summary]
    simp [Int.sub_add_cancel]
  · decide

/-- Counterexample to C1 as stated: on A = [(1,20)], B = [(1,21)] with
key = [id] the engine reports matching_percentage 100.00 although
round(matching_rows_perfect / (total_rows_a + additional_records) * 100, 2)
is 0.00: the numerator the code uses is not matching_rows_perfect. -/
theorem C1_counterexample :
    (runLoaded idNfc ["id"] "a.csv" "b.csv" exOneA exOneB).summary.rows_with_differences = 1 ∧
    (runLoaded idNfc ["id"] "a.csv" "b.csv" exOneA exOneB).summary.matching_rows_perfect = 0 ∧
    (runLoaded idNfc ["id"] "a.csv" "b.csv" exOneA exOneB).summary.matching_percentage_bp = 10000 ∧
    (runLoaded idNfc ["id"] "a.csv" "b.csv" exOneA exOneB).summary.matching_percentage_bp ≠
      halfEvenDiv
        ((runLoaded idNfc ["id"] "a.csv" "b.csv" exOneA exOneB).summary.matching_rows_perfect * 10000)
        ((runLoaded idNfc ["id"] "a.csv" "b.csv" exOneA exOneB).summary.total_rows_file1 +
          (runLoaded idNfc ["id"] "a.csv" "b.csv" exOneA exOneB).summary.additional_records) := by
  decide

/-! ### Claim C2 -/

/-- C2 (amended): `run_comparison` never raises — in the embedding it is a
total function — and whenever loading succeeds the returned dictionary is
complete (it carries a `summary` key together with success, errors,
differences and structured_differences); but when loading fails the returned
dictionary is the short form with no `summary` key: success false, the load
errors, and empty difference lists. -/
theorem C2_result_shape (nfc : String → String) (kc : List String)
    (f1 f2 : String) (lo : Except (List String) (Table × Table)) :
    (∀ t1 t2, lo = Except.ok (t1, t2) →
      ((runComparison nfc kc f1 f2 lo).summary).isSome = true) ∧
    (∀ errs, lo = Except.error errs →
      runComparison nfc kc f1 f2 lo = CompResult.mk false none errs [] []) := by
  constructor
  · intro t1 t2 h
    subst h
    rfl
  · intro errs h
    subst h
    rfl

/-- Witness for C2 at a successful and at a failed load. -/
theorem C2_witness :
    ((runComparison idNfc [] "a.csv" "b.csv"
        (Except.ok (exTableA, exTableA))).summary).isSome = true ∧
    runComparison idNfc [] "a.csv" "b.csv"
        (Except.error ["File not found: a.csv"]) =
      CompResult.mk false none ["File not found: a.csv"] [] [] :=
  ⟨(C2_result_shape idNfc [] "a.csv" "b.csv"
      (Except.ok (exTableA, exTableA))).1 exTableA exTableA rfl,
   (C2_result_shape idNfc [] "a.csv" "b.csv"
      (Except.error ["File not found: a.csv"])).2
      ["File not found: a.csv"] rfl⟩

/-- Counterexample to C2 as stated: when a source file is missing, the
returned dictionary has no `summary` key at all, so the caller does not
receive a complete Result object. -/
theorem C2_counterexample :
    (runComparison idNfc ["id"] "a.csv" "b.csv"
      (Except.error ["File not found: a.csv"])).summary = none := rfl

/-! ### Claim C10 -/

/-- C10: in positional mode the summary always reports
matching_percentage 0.0 and matching_rows_perfect = 0 - rows_with_differences,
which is negative whenever a positional content mismatch was recorded. -/
theorem C10_positional_summary (nfc : String → String) (f1 f2 : String)
    (t1 t2 : Table) :
    (runLoaded nfc [] f1 f2 t1 t2).summary.matching_percentage_bp = 0 ∧
    (runLoaded nfc [] f1 f2 t1 t2).summary.matching_rows_perfect =
      -((runLoaded nfc [] f1 f2 t1 t2).summary.rows_with_differences : Int) ∧
    (0 < (runLoaded nfc [] f1 f2 t1 t2).summary.rows_with_differences →
      (runLoaded nfc [] f1 f2 t1 t2).summary.matching_rows_perfect < 0) := by
  obtain ⟨hs, _, _⟩ := runLoaded_positional nfc f1 f2 t1 t2
  have hma : ∀ d ∈ (runLoaded nfc [] f1 f2 t1 t2).structured_differences,
      touchesMA d = false := by
    rw [hs]
    intro d hd
    rcases List.mem_append.mp hd with hd | hd
    · exact matchfree_ma (priorClean_matchfree t1 t2 d hd)
    · exact comparePositionalOut_ma_free t1 t2 d hd
  have hcts := foldl_ma_free _ hma (Counts.mk 0 0 0)
  have hac : (countsOf
      (runLoaded nfc [] f1 f2 t1 t2).structured_differences).ac = 0 := hcts.2
  rw [runLoaded_summary]
  refine ⟨?_, ?_, ?_⟩
  · simp [hac, halfEvenDiv_zero]
  · simp
  · intro h
    simp only at h
    simp
    omega

/-- Witness for C10 on a positional run recording one content mismatch. -/
theorem C10_witness :
    0 < (runLoaded idNfc [] "a.csv" "b.csv" exOneA
        exOneB).summary.rows_with_differences ∧
    (runLoaded idNfc [] "a.csv" "b.csv" exOneA
        exOneB).summary.matching_rows_perfect < 0 ∧
    (runLoaded idNfc [] "a.csv" "b.csv" exOneA
        exOneB).summary.matching_percentage_bp = 0 := by
  have h := C10_positional_summary idNfc "a.csv" "b.csv" exOneA exOneB
  have hpos : 0 < (runLoaded idNfc [] "a.csv" "b.csv" exOneA
      exOneB).summary.rows_with_differences := by decide
  exact ⟨hpos, h.2.2 hpos, h.1⟩

/-! ### Claim C8 -/

/-- C8 (amended): for identical sources that carry no replacement character
and — when key columns are configured — whose key columns exist and whose keys
are unique, the run succeeds with an empty differences list and zero rows
with differences.  (Identical sources with duplicate keys are rejected as
fatal, and pre-existing replacement characters put a warning into
`differences`; both falsify the claim as stated.) -/
theorem C8_identical_sources (nfc : String → String) (kc : List String)
    (f1 f2 : String) (t : Table) (hre : replCellCount t = 0)
    (hkey : kc ≠ [] → (∀ k ∈ kc, k ∈ t.header) ∧ (keysOf kc t).Nodup) :
    (runLoaded nfc kc f1 f2 t t).success = true ∧
    (runLoaded nfc kc f1 f2 t t).differences = [] ∧
    (runLoaded nfc kc f1 f2 t t).summary.rows_with_differences = 0 := by
  have hw1 := @warnOut_of_no_repl t "File 1" hre
  have hw2 := @warnOut_of_no_repl t "File 2" hre
  have hhc := @headerCompareOut_of_eq t t rfl
  by_cases hkc : kc = []
  · subst hkc
    have hv := @validateHeadersOut_clean [] t t rfl
    have hp := comparePositionalOut_self t
    refine ⟨?_, ?_, ?_⟩ <;>
      simp [runLoaded, hv, hw1, hw2, hhc, hp, countsOf]
  · obtain ⟨hk, hnd⟩ := hkey hkc
    have hke : keyErrsOf kc t t = [] := keyErrsOf_nil hk hk
    have hv := @validateHeadersOut_clean kc t t hke
    have hu := @validateKeyUniquenessOut_clean kc f1 f2 t t
      (dupRowsOf_nil_of_nodup hnd) (dupRowsOf_nil_of_nodup hnd)
    have hcw : compareWithKeyOut nfc kc f1 f2 t t [] = (true, [], []) :=
      compareWithKeyOut_self nfc kc f1 f2 t hnd [] (by intro d hd; cases hd)
    refine ⟨?_, ?_, ?_⟩ <;>
      simp [runLoaded, hv, hu, hw1, hw2, hhc, hkc, hcw, countsOf]

/-- Counterexample to C8 as stated: a pair of identical sources whose key
column repeats a value is reported as a failed run. -/
theorem C8_counterexample :
    (runLoaded idNfc ["id"] "a.csv" "b.csv" exDup exDup).success = false := by
  decide

/-- Witness for C8 on a clean identical pair in key mode. -/
theorem C8_witness :
    (runLoaded idNfc ["id"] "a.csv" "b.csv" exTableA exTableA).success =
        true ∧
    (runLoaded idNfc ["id"] "a.csv" "b.csv" exTableA exTableA).differences =
        [] ∧
    (runLoaded idNfc ["id"] "a.csv" "b.csv" exTableA
        exTableA).summary.rows_with_differences = 0 :=
  C8_identical_sources idNfc ["id"] "a.csv" "b.csv" exTableA (by decide)
    (fun _ => ⟨by decide, by decide⟩)

/-! ### Claim C3 -/

/-- On a key run with present key columns but a failed uniqueness check the
pipeline stops before the matcher: the errors are the duplicate-key messages
and the structured differences end with the duplicate-key entries. -/
theorem runLoaded_key_dup (nfc : String → String) (kc : List String)
    (f1 f2 : String) (t1 t2 : Table) (hkc : kc ≠ [])
    (hke : keyErrsOf kc t1 t2 = [])
    (hdup : (validateKeyUniquenessOut kc f1 f2 t1 t2).1 = false) :
    (runLoaded nfc kc f1 f2 t1 t2).errors =
        (validateKeyUniquenessOut kc f1 f2 t1 t2).2.1 ∧
      (runLoaded nfc kc f1 f2 t1 t2).structured_differences =
        (warnOut t1 "File 1").2 ++ (warnOut t2 "File 2").2 ++
          (headerCompareOut t1 t2).2.2 ++
          (validateKeyUniquenessOut kc f1 f2 t1 t2).2.2 := by
  have hv := @validateHeadersOut_clean kc t1 t2 hke
  constructor <;> simp [runLoaded, hv, hkc, hdup]

/-- C3: in key-based mode, whenever any source repeats a key tuple, the run
appends a fatal error; each source with a repeated key contributes its own
`duplicate_keys` structured difference carrying the offending ids and every
duplicate row verbatim; and the matching phase (hence content comparison)
contributes no entry at all. -/
theorem C3_duplicate_keys (nfc : String → String) (kc : List String)
    (f1 f2 : String) (t1 t2 : Table) (hkc : kc ≠ [])
    (hk1 : ∀ k ∈ kc, k ∈ t1.header) (hk2 : ∀ k ∈ kc, k ∈ t2.header)
    (hdup : ¬(keysOf kc t1).Nodup ∨ ¬(keysOf kc t2).Nodup) :
    (runLoaded nfc kc f1 f2 t1 t2).errors ≠ [] ∧
    (¬(keysOf kc t1).Nodup →
      SDiff.duplicate_keys f1 (dupRowsOf kc t1).length
          (dupIds kc (dupRowsOf kc t1)) (dupRowsOf kc t1) ∈
        (runLoaded nfc kc f1 f2 t1 t2).structured_differences) ∧
    (¬(keysOf kc t2).Nodup →
      SDiff.duplicate_keys f2 (dupRowsOf kc t2).length
          (dupIds kc (dupRowsOf kc t2)) (dupRowsOf kc t2) ∈
        (runLoaded nfc kc f1 f2 t1 t2).structured_differences) ∧
    ∀ d ∈ (runLoaded nfc kc f1 f2 t1 t2).structured_differences,
      isMatchPhase d = false := by
  have hke := keyErrsOf_nil hk1 hk2
  have hdne : dupRowsOf kc t1 ≠ [] ∨ dupRowsOf kc t2 ≠ [] :=
    hdup.imp dupRowsOf_ne_nil dupRowsOf_ne_nil
  have huvsd : (validateKeyUniquenessOut kc f1 f2 t1 t2).2.2 =
      (if dupRowsOf kc t1 ≠ [] then
        [SDiff.duplicate_keys f1 (dupRowsOf kc t1).length
          (dupIds kc (dupRowsOf kc t1)) (dupRowsOf kc t1)] else []) ++
      (if dupRowsOf kc t2 ≠ [] then
        [SDiff.duplicate_keys f2 (dupRowsOf kc t2).length
          (dupIds kc (dupRowsOf kc t2)) (dupRowsOf kc t2)] else []) := rfl
  have huverr : (validateKeyUniquenessOut kc f1 f2 t1 t2).2.1 =
      (if dupRowsOf kc t1 ≠ [] then
        [dupErrMsg "File 1" (dupRowsOf kc t1).length
          (idsPreview (dupIds kc (dupRowsOf kc t1)))] else []) ++
      (if dupRowsOf kc t2 ≠ [] then
        [dupErrMsg "File 2" (dupRowsOf kc t2).length
          (idsPreview (dupIds kc (dupRowsOf kc t2)))] else []) := rfl
  have huv1 : (validateKeyUniquenessOut kc f1 f2 t1 t2).1 = false := by
    show (decide (dupRowsOf kc t1 = []) &&
      decide (dupRowsOf kc t2 = [])) = false
    rcases hdne with h | h <;> simp [h]
  obtain ⟨herr, hsd⟩ := runLoaded_key_dup nfc kc f1 f2 t1 t2 hkc hke huv1
  refine ⟨?_, ?_, ?_, ?_⟩
  · rw [herr, huverr]
    rcases hdne with h | h <;> rw [if_pos h] <;> simp
  · intro hnd1
    have h := dupRowsOf_ne_nil hnd1
    rw [hsd, huvsd]
    apply List.mem_append_right
    rw [if_pos h]
    exact List.mem_append_left _ (List.mem_singleton.mpr rfl)
  · intro hnd2
    have h := dupRowsOf_ne_nil hnd2
    rw [hsd, huvsd]
    apply List.mem_append_right
    apply List.mem_append_right
    rw [if_pos h]
    exact List.mem_singleton.mpr rfl
  · rw [hsd]
    intro d hd
    simp only [List.mem_append] at hd
    rcases hd with ((hd | hd) | hd) | hd
    · exact warnOut_matchfree t1 "File 1" d hd
    · exact warnOut_matchfree t2 "File 2" d hd
    · exact headerCompareOut_matchfree t1 t2 d hd
    · exact uniqOut_matchfree kc f1 f2 t1 t2 d hd

/-- Witness for C3: both sources repeat a key, exercising the File 1 entry
and the File 2 entry. -/
theorem C3_witness :
    (runLoaded idNfc ["id"] "a.csv" "b.csv" exDup exDupB).errors ≠ [] ∧
    SDiff.duplicate_keys "a.csv" (dupRowsOf ["id"] exDup).length
        (dupIds ["id"] (dupRowsOf ["id"] exDup)) (dupRowsOf ["id"] exDup) ∈
      (runLoaded idNfc ["id"] "a.csv" "b.csv" exDup
        exDupB).structured_differences ∧
    SDiff.duplicate_keys "b.csv" (dupRowsOf ["id"] exDupB).length
        (dupIds ["id"] (dupRowsOf ["id"] exDupB)) (dupRowsOf ["id"] exDupB) ∈
      (runLoaded idNfc ["id"] "a.csv" "b.csv" exDup
        exDupB).structured_differences ∧
    ∀ d ∈ (runLoaded idNfc ["id"] "a.csv" "b.csv" exDup
        exDupB).structured_differences, isMatchPhase d = false := by
  have h := C3_duplicate_keys idNfc ["id"] "a.csv" "b.csv" exDup exDupB
    (by decide) (by decide) (by decide) (Or.inl (by decide))
  exact ⟨h.1, h.2.1 (by decide), h.2.2.1 (by decide), h.2.2.2⟩

/-! ### Claim C6 -/

theorem compareWithKeyOut_sdiffs (nfc : String → String) (kc : List String)
    (f1 f2 : String) (t1 t2 : Table) (prior : List SDiff) :
    (compareWithKeyOut nfc kc f1 f2 t1 t2 prior).2.2 =
      (if missingRows kc t1 t2 ≠ [] then
        [SDiff.missing_records f1 (missingRows kc t1 t2).length
          (sortedIds kc (missingRows kc t1 t2)) (missingRows kc t1 t2)]
       else []) ++
      (if additionalRows kc t1 t2 ≠ [] then
        [SDiff.additional_records f2 (additionalRows kc t1 t2).length
          (sortedIds kc (additionalRows kc t1 t2)) (additionalRows kc t1 t2)]
       else []) ++
      (if columnsToCheck kc t1 t2 ≠ [] then contentEntries nfc kc t1 t2
       else []) := rfl

theorem cS_ma_free (nfc : String → String) (kc : List String) (t1 t2 : Table) :
    ∀ d ∈ (if columnsToCheck kc t1 t2 ≠ [] then contentEntries nfc kc t1 t2
      else []), touchesMA d = false := by
  intro d hd
  split at hd
  · exact content_not_ma (contentEntries_all_content nfc kc t1 t2 d hd)
  · cases hd

theorem cS_all_content (nfc : String → String) (kc : List String)
    (t1 t2 : Table) :
    ∀ d ∈ (if columnsToCheck kc t1 t2 ≠ [] then contentEntries nfc kc t1 t2
      else []), isContentB d = true := by
  intro d hd
  split at hd
  · exact contentEntries_all_content nfc kc t1 t2 d hd
  · cases hd

/-- On a clean key run the missing/additional counters of the summary read
back exactly the row counts of the matcher. -/
theorem runLoaded_key_clean_counts (nfc : String → String) (kc : List String)
    (f1 f2 : String) (t1 t2 : Table) (hkc : kc ≠ [])
    (hke : keyErrsOf kc t1 t2 = [])
    (hd1 : dupRowsOf kc t1 = []) (hd2 : dupRowsOf kc t2 = []) :
    (runLoaded nfc kc f1 f2 t1 t2).summary.missing_records =
        (missingRows kc t1 t2).length ∧
      (runLoaded nfc kc f1 f2 t1 t2).summary.additional_records =
        (additionalRows kc t1 t2).length := by
  obtain ⟨hs, _, _⟩ := runLoaded_key_clean nfc kc f1 f2 t1 t2 hkc hke hd1 hd2
  have hcount : countsOf (runLoaded nfc kc f1 f2 t1 t2).structured_differences =
      countsOf ((compareWithKeyOut nfc kc f1 f2 t1 t2 (priorClean t1 t2)).2.2) := by
    rw [hs]
    exact countsOf_append_matchfree _ _ (priorClean_matchfree t1 t2)
  have hms := countsOf_matcher_ma f1 f2 (missingRows kc t1 t2)
    (additionalRows kc t1 t2) (sortedIds kc (missingRows kc t1 t2))
    (sortedIds kc (additionalRows kc t1 t2)) (missingRows kc t1 t2)
    (additionalRows kc t1 t2)
    (if columnsToCheck kc t1 t2 ≠ [] then contentEntries nfc kc t1 t2 else [])
    (cS_ma_free nfc kc t1 t2)
  rw [runLoaded_summary]
  constructor
  · show (countsOf (runLoaded nfc kc f1 f2 t1 t2).structured_differences).mc = _
    rw [hcount, compareWithKeyOut_sdiffs]
    exact hms.1
  · show (countsOf (runLoaded nfc kc f1 f2 t1 t2).structured_differences).ac = _
    rw [hcount, compareWithKeyOut_sdiffs]
    exact hms.2

theorem missingRows_length_eq (kc : List String) (t1 t2 : Table) :
    (missingRows kc t1 t2).length =
      ((keysOf kc t1).filter fun k => decide (k ∉ keysOf kc t2)).length := by
  unfold missingRows keysOf
  rw [List.filter_map, List.length_map]
  rfl

theorem additionalRows_length_eq (kc : List String) (t1 t2 : Table) :
    (additionalRows kc t1 t2).length =
      ((keysOf kc t2).filter fun k => decide (k ∉ keysOf kc t1)).length := by
  unfold additionalRows keysOf
  rw [List.filter_map, List.length_map]
  rfl

theorem filter_not_mem_card {l1 l2 : List (List String)} (hnd : l1.Nodup) :
    (l1.filter fun k => decide (k ∉ l2)).length =
      (l1.toFinset \ l2.toFinset).card := by
  rw [Finset.sdiff_eq_filter]
  have h1 : ((l1.filter fun k => decide (k ∉ l2)).toFinset :
      Finset (List String)) =
      Finset.filter (fun x => x ∉ l2.toFinset) l1.toFinset := by
    rw [List.toFinset_filter]
    apply Finset.filter_congr
    intro x _
    simp
  rw [← List.toFinset_card_of_nodup (hnd.filter _), h1]

/-- C6: in key-based mode (with present key columns and unique keys, the
precondition under which the matcher runs at all), the reported
missing_records count is the cardinality of keys(A) minus keys(B) as a set
difference, and the additional_records count is the cardinality of
keys(B) minus keys(A). -/
theorem C6_set_difference_counts (nfc : String → String) (kc : List String)
    (f1 f2 : String) (t1 t2 : Table) (hkc : kc ≠ [])
    (hk1 : ∀ k ∈ kc, k ∈ t1.header) (hk2 : ∀ k ∈ kc, k ∈ t2.header)
    (hnd1 : (keysOf kc t1).Nodup) (hnd2 : (keysOf kc t2).Nodup) :
    (runLoaded nfc kc f1 f2 t1 t2).summary.missing_records =
        ((keysOf kc t1).toFinset \ (keysOf kc t2).toFinset).card ∧
      (runLoaded nfc kc f1 f2 t1 t2).summary.additional_records =
        ((keysOf kc t2).toFinset \ (keysOf kc t1).toFinset).card := by
  have hke := keyErrsOf_nil hk1 hk2
  obtain ⟨hm, ha⟩ := runLoaded_key_clean_counts nfc kc f1 f2 t1 t2 hkc hke
    (dupRowsOf_nil_of_nodup hnd1) (dupRowsOf_nil_of_nodup hnd2)
  constructor
  · rw [hm, missingRows_length_eq, filter_not_mem_card hnd1]
  · rw [ha, additionalRows_length_eq, filter_not_mem_card hnd2]

/-- Witness for C6 on the scenario tables: one missing key, one additional
key. -/
theorem C6_witness :
    ((runLoaded idNfc ["id"] "a.csv" "b.csv" exTableA
        exTableB).summary.missing_records =
      ((keysOf ["id"] exTableA).toFinset \
        (keysOf ["id"] exTableB).toFinset).card ∧
    (runLoaded idNfc ["id"] "a.csv" "b.csv" exTableA
        exTableB).summary.additional_records =
      ((keysOf ["id"] exTableB).toFinset \
        (keysOf ["id"] exTableA).toFinset).card) ∧
    (runLoaded idNfc ["id"] "a.csv" "b.csv" exTableA
        exTableB).summary.missing_records = 1 :=
  ⟨C6_set_difference_counts idNfc ["id"] "a.csv" "b.csv" exTableA exTableB
      (by decide) (by decide) (by decide) (by decide) (by decide),
   by decide⟩

/-! ### Claim C5 -/

/-- C5: cell comparison is normalization followed by exact string equality,
with no numeric coercion: whenever a matched pair of rows carries "80" and
"80.0" in a common non-key column, the run records a content_mismatch entry
whose cell diffs contain exactly that pair of strings.  The two NFC
hypotheses are the Unicode facts that NFC fixes the ASCII strings "80" and
"80.0". -/
theorem C5_strict_string_comparison (nfc : String → String)
    (kc : List String) (f1 f2 : String) (t1 t2 : Table) (c : String)
    (r1 r2 : Row) (hkc : kc ≠ [])
    (hk1 : ∀ k ∈ kc, k ∈ t1.header) (hk2 : ∀ k ∈ kc, k ∈ t2.header)
    (hnd1 : (keysOf kc t1).Nodup) (hnd2 : (keysOf kc t2).Nodup)
    (hr1 : r1 ∈ t1.rows) (hr2 : r2 ∈ t2.rows)
    (hkey : keyTuple kc r2 = keyTuple kc r1)
    (hc1 : c ∈ t1.header) (hc2 : c ∈ t2.header) (hck : c ∉ kc)
    (hv1 : cellVal r1 c = "80") (hv2 : cellVal r2 c = "80.0")
    (h80 : nfc "80" = "80") (h800 : nfc "80.0" = "80.0") :
    ∃ k n diffs row1 row2,
      SDiff.content_mismatch k n diffs row1 row2 ∈
        (runLoaded nfc kc f1 f2 t1 t2).structured_differences ∧
      CellDiff.mk c "80" "80.0" ∈ diffs := by
  have hs80 : pyStrip "80" = "80" := by decide
  have hs800 : pyStrip "80.0" = "80.0" := by decide
  have hn80 : normVal nfc "80" = "80" := by
    unfold normVal
    rw [hs80, h80]
    decide
  have hn800 : normVal nfc "80.0" = "80.0" := by
    unfold normVal
    rw [hs800, h800]
    decide
  have hne : normVal nfc (cellVal r1 c) ≠ normVal nfc (cellVal r2 c) := by
    rw [hv1, hv2, hn80, hn800]
    decide
  have hcc : c ∈ columnsToCheck kc t1 t2 := by
    unfold columnsToCheck commonColumns
    rw [List.mem_filter]
    refine ⟨?_, by simpa using hck⟩
    rw [List.mem_filter]
    exact ⟨hc1, by simpa using hc2⟩
  have hp : (r1, r2) ∈ commonPairs kc t1 t2 := by
    unfold commonPairs
    rw [List.mem_flatMap]
    refine ⟨r1, hr1, ?_⟩
    rw [List.mem_map]
    refine ⟨r2, ?_, rfl⟩
    rw [List.mem_filter]
    exact ⟨hr2, by simp [hkey]⟩
  have hdc : c ∈ diffColsOf nfc kc t1 t2 (r1, r2) := by
    unfold diffColsOf
    rw [List.mem_filter]
    exact ⟨hcc, by simp [hne]⟩
  have hdcne : diffColsOf nfc kc t1 t2 (r1, r2) ≠ [] :=
    List.ne_nil_of_mem hdc
  have hce : contentEntry nfc kc t1 t2 (r1, r2) =
      some (SDiff.content_mismatch (keyIdStr kc r1)
        (diffColsOf nfc kc t1 t2 (r1, r2)).length
        ((diffColsOf nfc kc t1 t2 (r1, r2)).map fun c' =>
          CellDiff.mk c' (normVal nfc (cellVal r1 c'))
            (normVal nfc (cellVal r2 c')))
        (fullRowFor kc (commonColumns t1 t2) r1)
        (fullRowFor kc (commonColumns t1 t2) r2)) := by
    unfold contentEntry
    rw [if_neg hdcne]
  have hme := List.mem_filterMap.mpr ⟨(r1, r2), hp, hce⟩
  have hcd : CellDiff.mk c "80" "80.0" ∈
      (diffColsOf nfc kc t1 t2 (r1, r2)).map fun c' =>
        CellDiff.mk c' (normVal nfc (cellVal r1 c'))
          (normVal nfc (cellVal r2 c')) := by
    rw [List.mem_map]
    refine ⟨c, hdc, ?_⟩
    rw [hv1, hv2, hn80, hn800]
  obtain ⟨hs, _, _⟩ := runLoaded_key_clean nfc kc f1 f2 t1 t2 hkc
    (keyErrsOf_nil hk1 hk2) (dupRowsOf_nil_of_nodup hnd1)
    (dupRowsOf_nil_of_nodup hnd2)
  refine ⟨keyIdStr kc r1, (diffColsOf nfc kc t1 t2 (r1, r2)).length,
    (diffColsOf nfc kc t1 t2 (r1, r2)).map fun c' =>
      CellDiff.mk c' (normVal nfc (cellVal r1 c'))
        (normVal nfc (cellVal r2 c')),
    fullRowFor kc (commonColumns t1 t2) r1,
    fullRowFor kc (commonColumns t1 t2) r2, ?_, hcd⟩
  rw [hs, compareWithKeyOut_sdiffs]
  apply List.mem_append_right
  apply List.mem_append_right
  rw [if_pos (List.ne_nil_of_mem hcc)]
  exact hme

/-- Witness for C5 on single-row tables joined on "id" with "80" and "80.0"
in column "x". -/
theorem C5_witness :
    ∃ k n diffs row1 row2,
      SDiff.content_mismatch k n diffs row1 row2 ∈
        (runLoaded idNfc ["id"] "a.csv" "b.csv" exEightyA
          exEightyB).structured_differences ∧
      CellDiff.mk "x" "80" "80.0" ∈ diffs :=
  C5_strict_string_comparison idNfc ["id"] "a.csv" "b.csv" exEightyA
    exEightyB "x" [("id", "1"), ("x", "80")] [("id", "1"), ("x", "80.0")]
    (by decide) (by decide) (by decide) (by decide) (by decide) (by decide)
    (by decide) (by decide) (by decide) (by decide) (by decide) (by decide)
    (by decide) (by decide) (by decide)

/-! ### Claim C4 -/

theorem firstDecode_none (fm : FileModel) (l : List String)
    (h : ∀ e ∈ l, fm.decode e = none) : firstDecode fm l = none := by
  induction l with
  | nil => rfl
  | cons e es ih =>
    unfold firstDecode
    rw [h e (by simp)]
    exact ih (fun x hx => h x (List.mem_cons_of_mem _ hx))

/-- C4 (amended): the loader of the engine uses the configured separator for every
attempt — it never varies the delimiter and never falls back to dialect
sniffing (that heuristic lives only in the external batch header-validation
utility) — and it accepts the first encoding that strictly decodes regardless
of how many columns result; only when every candidate encoding fails to
decode does it fail, with a DecodeError enumerating every encoding
attempted. -/
theorem C4_decode_error_enumerates (fm : FileModel) (sep : Char)
    (h : ∀ e ∈ pyEncodings, fm.decode e = none) :
    readCsvRobust fm sep =
      Except.error (LoadError.decodeError pyEncodings) := by
  unfold readCsvRobust
  rw [firstDecode_none fm pyEncodings h]

/-- Witness for C4 on a file no candidate encoding decodes. -/
theorem C4_witness :
    readCsvRobust exUndecodableFile (Char.ofNat 59) =
      Except.error (LoadError.decodeError pyEncodings) :=
  C4_decode_error_enumerates exUndecodableFile (Char.ofNat 59)
    (fun _ _ => rfl)

/-- Counterexample to C4 as stated: a utf-8 file with no delimiter occurrence
at all — so no tried encoding/delimiter combination can produce a header with
more than one column — loads successfully as a single-column table instead of
failing with a DecodeError, and no alternative delimiter or sniffing pass is
attempted. -/
theorem C4_counterexample :
    (readCsvRobust exNoDelimFile (Char.ofNat 59)).toOption =
      some (Table.mk ["abc"] [[("abc", "xyz")]]) ∧
    (Table.mk ["abc"] [[("abc", "xyz")]] : Table).header.length = 1 := by
  constructor
  · decide
  · rfl

/-! ### Claim C7: congruence and permutation lemmas -/

theorem keyErrsOf_congr {kc : List String} {t1 t1' t2 t2' : Table}
    (hh1 : t1'.header = t1.header) (hh2 : t2'.header = t2.header) :
    keyErrsOf kc t1' t2' = keyErrsOf kc t1 t2 := by
  unfold keyErrsOf
  rw [hh1, hh2]

theorem columnsToCheck_congr {kc : List String} {t1 t1' t2 t2' : Table}
    (hh1 : t1'.header = t1.header) (hh2 : t2'.header = t2.header) :
    columnsToCheck kc t1' t2' = columnsToCheck kc t1 t2 := by
  unfold columnsToCheck commonColumns
  rw [hh1, hh2]

theorem contentEntry_congr {nfc : String → String} {kc : List String}
    {t1 t1' t2 t2' : Table}
    (hh1 : t1'.header = t1.header) (hh2 : t2'.header = t2.header) :
    contentEntry nfc kc t1' t2' = contentEntry nfc kc t1 t2 := by
  funext p
  unfold contentEntry diffColsOf columnsToCheck commonColumns
  rw [hh1, hh2]

theorem missingRows_perm {kc : List String} {t1 t1' t2 t2' : Table}
    (hr1 : t1'.rows.Perm t1.rows) (hr2 : t2'.rows.Perm t2.rows) :
    (missingRows kc t1' t2').Perm (missingRows kc t1 t2) := by
  unfold missingRows
  have hcong : ∀ r ∈ t1'.rows,
      (decide (keyTuple kc r ∉ keysOf kc t2') : Bool) =
        decide (keyTuple kc r ∉ keysOf kc t2) := by
    intro r _
    rw [decide_eq_decide]
    exact not_congr (hr2.map (keyTuple kc)).mem_iff
  rw [List.filter_congr hcong]
  exact hr1.filter _

theorem additionalRows_perm {kc : List String} {t1 t1' t2 t2' : Table}
    (hr1 : t1'.rows.Perm t1.rows) (hr2 : t2'.rows.Perm t2.rows) :
    (additionalRows kc t1' t2').Perm (additionalRows kc t1 t2) := by
  unfold additionalRows
  have hcong : ∀ r ∈ t2'.rows,
      (decide (keyTuple kc r ∉ keysOf kc t1') : Bool) =
        decide (keyTuple kc r ∉ keysOf kc t1) := by
    intro r _
    rw [decide_eq_decide]
    exact not_congr (hr1.map (keyTuple kc)).mem_iff
  rw [List.filter_congr hcong]
  exact hr2.filter _

theorem dupRowsOf_perm {kc : List String} {t t' : Table}
    (hr : t'.rows.Perm t.rows) : (dupRowsOf kc t').Perm (dupRowsOf kc t) := by
  unfold dupRowsOf
  have hcong : ∀ r ∈ t'.rows,
      (decide (2 ≤ (keysOf kc t').countP fun x =>
          decide (x = keyTuple kc r)) : Bool) =
        decide (2 ≤ (keysOf kc t).countP fun x =>
          decide (x = keyTuple kc r)) := by
    intro r _
    rw [decide_eq_decide]
    unfold keysOf
    rw [(hr.map (keyTuple kc)).countP_eq]
  rw [List.filter_congr hcong]
  exact hr.filter _

theorem commonPairs_perm {kc : List String}
    {t1 t1' t2 t2' : Table}
    (hr1 : t1'.rows.Perm t1.rows) (hr2 : t2'.rows.Perm t2.rows) :
    (commonPairs kc t1' t2').Perm (commonPairs kc t1 t2) := by
  unfold commonPairs
  refine (List.Perm.flatMap_right _ hr1).trans ?_
  exact List.Perm.flatMap_left _ (fun r1 _ => (hr2.filter _).map _)

theorem contentEntries_perm {nfc : String → String} {kc : List String}
    {t1 t1' t2 t2' : Table}
    (hh1 : t1'.header = t1.header) (hh2 : t2'.header = t2.header)
    (hr1 : t1'.rows.Perm t1.rows) (hr2 : t2'.rows.Perm t2.rows) :
    (contentEntries nfc kc t1' t2').Perm (contentEntries nfc kc t1 t2) := by
  unfold contentEntries
  rw [contentEntry_congr hh1 hh2]
  exact List.Perm.filterMap _ (commonPairs_perm hr1 hr2)

theorem sortedIds_perm {kc : List String} {r1 r2 : List Row}
    (h : r1.Perm r2) : (sortedIds kc r1).Perm (sortedIds kc r2) := by
  rcases kc with _ | ⟨k, _ | ⟨k2, ks⟩⟩
  · exact ((List.perm_insertionSort _ _).trans
      ((h.map _).trans (List.perm_insertionSort _ _).symm)).map _
  · exact (List.perm_insertionSort _ _).trans
      ((h.map _).trans (List.perm_insertionSort _ _).symm)
  · exact ((List.perm_insertionSort _ _).trans
      ((h.map _).trans (List.perm_insertionSort _ _).symm)).map _

/-! ### Claim C7: the fatal key-column path -/

theorem listInfix_of_start {p l : List Char} (h : p.isPrefixOf l = true) :
    listInfix p l = true := by
  cases l with
  | nil =>
    cases p with
    | nil => rfl
    | cons c t => simp [List.isPrefixOf] at h
  | cons c t =>
    unfold listInfix
    rw [h]
    rfl

theorem isPrefixOf_append_self (a b : List Char) :
    a.isPrefixOf (a ++ b) = true := by
  induction a with
  | nil => simp [List.isPrefixOf]
  | cons c t ih => simp [List.isPrefixOf, ih]

theorem keyColMsg_has_token (k w : String) :
    listInfix keyColToken.data (keyColMsg k w).data = true := by
  apply listInfix_of_start
  have hdata : (keyColMsg k w).data = keyColToken.data ++
      (" ".data ++ ((pyRepr k).data ++
        (" not found in ".data ++ (w.data ++ " headers.".data)))) := by
    simp [keyColMsg, String.data_append]
  rw [hdata]
  exact isPrefixOf_append_self _ _

theorem keyErrs_any_token (kc : List String) (t1 t2 : Table)
    (h : keyErrsOf kc t1 t2 ≠ []) :
    (keyErrsOf kc t1 t2).any (fun e => listInfix keyColToken.data e.data) =
      true := by
  have hall : ∀ e ∈ keyErrsOf kc t1 t2,
      listInfix keyColToken.data e.data = true := by
    intro e he
    unfold keyErrsOf at he
    rw [List.mem_flatMap] at he
    obtain ⟨k, _, hk⟩ := he
    rcases List.mem_append.mp hk with hm | hm <;> split at hm <;>
      first
      | (rw [List.mem_singleton.mp hm]; exact keyColMsg_has_token _ _)
      | cases hm
  obtain ⟨e, hel⟩ := List.exists_mem_of_ne_nil _ h
  rw [List.any_eq_true]
  exact ⟨e, hel, hall e hel⟩

theorem runLoaded_key_fatal (nfc : String → String) (kc : List String)
    (f1 f2 : String) (t1 t2 : Table) (hkc : kc ≠ [])
    (hne : keyErrsOf kc t1 t2 ≠ []) :
    (runLoaded nfc kc f1 f2 t1 t2).structured_differences =
      (warnOut t1 "File 1").2 ++ (warnOut t2 "File 2").2 := by
  have hv : validateHeadersOut kc t1 t2 =
      (false, keyErrsOf kc t1 t2, [], []) := by
    unfold validateHeadersOut
    rw [if_pos hne]
  have hany := keyErrs_any_token kc t1 t2 hne
  simp [runLoaded, hv, hkc, hany]

/-- When no matcher entry was produced, all five observations of C7 are
trivially preserved. -/
theorem extracts_trivial {l l' : List SDiff}
    (h : ∀ d ∈ l, isMatchPhase d = false)
    (h' : ∀ d ∈ l', isMatchPhase d = false) :
    (countsOf l').mc = (countsOf l).mc ∧
    (countsOf l').ac = (countsOf l).ac ∧
    (missIdsOf l').Perm (missIdsOf l) ∧
    (addIdsOf l').Perm (addIdsOf l) ∧
    (contentOf l').Perm (contentOf l) := by
  have c1 : countsOf l = Counts.mk 0 0 0 := foldl_counts_matchfree l h _
  have c2 : countsOf l' = Counts.mk 0 0 0 := foldl_counts_matchfree l' h' _
  rw [c1, c2, missIdsOf_matchfree l h, missIdsOf_matchfree l' h',
    addIdsOf_matchfree l h, addIdsOf_matchfree l' h',
    contentOf_matchfree l h, contentOf_matchfree l' h']
  exact ⟨rfl, rfl, List.Perm.refl _, List.Perm.refl _, List.Perm.refl _⟩

/-- C7: in key-based mode, permuting the rows of either source changes
neither the missing_records count and id membership, nor the
additional_records count and id membership, nor the multiset of
content_mismatch entries of the result. -/
theorem C7_order_independence (nfc : String → String) (kc : List String)
    (f1 f2 : String) (t1 t2 t1' t2' : Table) (hkc : kc ≠ [])
    (hh1 : t1'.header = t1.header) (hr1 : t1'.rows.Perm t1.rows)
    (hh2 : t2'.header = t2.header) (hr2 : t2'.rows.Perm t2.rows) :
    (runLoaded nfc kc f1 f2 t1' t2').summary.missing_records =
        (runLoaded nfc kc f1 f2 t1 t2).summary.missing_records ∧
      (runLoaded nfc kc f1 f2 t1' t2').summary.additional_records =
        (runLoaded nfc kc f1 f2 t1 t2).summary.additional_records ∧
      (missIdsOf
          (runLoaded nfc kc f1 f2 t1' t2').structured_differences).Perm
        (missIdsOf
          (runLoaded nfc kc f1 f2 t1 t2).structured_differences) ∧
      (addIdsOf
          (runLoaded nfc kc f1 f2 t1' t2').structured_differences).Perm
        (addIdsOf (runLoaded nfc kc f1 f2 t1 t2).structured_differences) ∧
      (contentOf
          (runLoaded nfc kc f1 f2 t1' t2').structured_differences).Perm
        (contentOf (runLoaded nfc kc f1 f2 t1 t2).structured_differences) := by
  by_cases hke : keyErrsOf kc t1 t2 = []
  · have hke' : keyErrsOf kc t1' t2' = [] :=
      (keyErrsOf_congr hh1 hh2).trans hke
    by_cases hdup : dupRowsOf kc t1 = [] ∧ dupRowsOf kc t2 = []
    · obtain ⟨hd1, hd2⟩ := hdup
      have hd1' : dupRowsOf kc t1' = [] :=
        List.Perm.eq_nil (hd1 ▸ dupRowsOf_perm hr1)
      have hd2' : dupRowsOf kc t2' = [] :=
        List.Perm.eq_nil (hd2 ▸ dupRowsOf_perm hr2)
      obtain ⟨hm, ha⟩ :=
        runLoaded_key_clean_counts nfc kc f1 f2 t1 t2 hkc hke hd1 hd2
      obtain ⟨hm', ha'⟩ :=
        runLoaded_key_clean_counts nfc kc f1 f2 t1' t2' hkc hke' hd1' hd2'
      obtain ⟨hs, _, _⟩ :=
        runLoaded_key_clean nfc kc f1 f2 t1 t2 hkc hke hd1 hd2
      obtain ⟨hs', _, _⟩ :=
        runLoaded_key_clean nfc kc f1 f2 t1' t2' hkc hke' hd1' hd2'
      have e1 : missIdsOf (runLoaded nfc kc f1 f2 t1 t2).structured_differences
          = sortedIds kc (missingRows kc t1 t2) := by
        rw [hs, missIdsOf_append,
          missIdsOf_matchfree _ (priorClean_matchfree t1 t2),
          compareWithKeyOut_sdiffs,
          missIdsOf_matcher f1 f2 kc (missingRows kc t1 t2)
            (additionalRows kc t1 t2)
            (sortedIds kc (additionalRows kc t1 t2)) (missingRows kc t1 t2)
            (additionalRows kc t1 t2) _ (cS_all_content nfc kc t1 t2),
          List.nil_append]
      have e1' : missIdsOf
          (runLoaded nfc kc f1 f2 t1' t2').structured_differences
          = sortedIds kc (missingRows kc t1' t2') := by
        rw [hs', missIdsOf_append,
          missIdsOf_matchfree _ (priorClean_matchfree t1' t2'),
          compareWithKeyOut_sdiffs,
          missIdsOf_matcher f1 f2 kc (missingRows kc t1' t2')
            (additionalRows kc t1' t2')
            (sortedIds kc (additionalRows kc t1' t2'))
            (missingRows kc t1' t2') (additionalRows kc t1' t2') _
            (cS_all_content nfc kc t1' t2'),
          List.nil_append]
      have e2 : addIdsOf (runLoaded nfc kc f1 f2 t1 t2).structured_differences
          = sortedIds kc (additionalRows kc t1 t2) := by
        rw [hs, addIdsOf_append,
          addIdsOf_matchfree _ (priorClean_matchfree t1 t2),
          compareWithKeyOut_sdiffs,
          addIdsOf_matcher f1 f2 kc (missingRows kc t1 t2)
            (additionalRows kc t1 t2)
            (sortedIds kc (missingRows kc t1 t2)) (missingRows kc t1 t2)
            (additionalRows kc t1 t2) _ (cS_all_content nfc kc t1 t2),
          List.nil_append]
      have e2' : addIdsOf
          (runLoaded nfc kc f1 f2 t1' t2').structured_differences
          = sortedIds kc (additionalRows kc t1' t2') := by
        rw [hs', addIdsOf_append,
          addIdsOf_matchfree _ (priorClean_matchfree t1' t2'),
          compareWithKeyOut_sdiffs,
          addIdsOf_matcher f1 f2 kc (missingRows kc t1' t2')
            (additionalRows kc t1' t2')
            (sortedIds kc (missingRows kc t1' t2'))
            (missingRows kc t1' t2') (additionalRows kc t1' t2') _
            (cS_all_content nfc kc t1' t2'),
          List.nil_append]
      have e3 : contentOf (runLoaded nfc kc f1 f2 t1 t2).structured_differences
          = (if columnsToCheck kc t1 t2 ≠ [] then contentEntries nfc kc t1 t2
             else []) := by
        rw [hs, contentOf_append,
          contentOf_matchfree _ (priorClean_matchfree t1 t2),
          compareWithKeyOut_sdiffs,
          contentOf_matcher f1 f2 (missingRows kc t1 t2)
            (additionalRows kc t1 t2) (sortedIds kc (missingRows kc t1 t2))
            (sortedIds kc (additionalRows kc t1 t2)) (missingRows kc t1 t2)
            (additionalRows kc t1 t2) _ (cS_all_content nfc kc t1 t2),
          List.nil_append]
      have e3' : contentOf
          (runLoaded nfc kc f1 f2 t1' t2').structured_differences
          = (if columnsToCheck kc t1' t2' ≠ [] then
              contentEntries nfc kc t1' t2' else []) := by
        rw [hs', contentOf_append,
          contentOf_matchfree _ (priorClean_matchfree t1' t2'),
          compareWithKeyOut_sdiffs,
          contentOf_matcher f1 f2 (missingRows kc t1' t2')
            (additionalRows kc t1' t2')
            (sortedIds kc (missingRows kc t1' t2'))
            (sortedIds kc (additionalRows kc t1' t2'))
            (missingRows kc t1' t2') (additionalRows kc t1' t2') _
            (cS_all_content nfc kc t1' t2'),
          List.nil_append]
      refine ⟨?_, ?_, ?_, ?_, ?_⟩
      · rw [hm', hm]
        exact (missingRows_perm hr1 hr2).length_eq
      · rw [ha', ha]
        exact (additionalRows_perm hr1 hr2).length_eq
      · rw [e1', e1]
        exact sortedIds_perm (missingRows_perm hr1 hr2)
      · rw [e2', e2]
        exact sortedIds_perm (additionalRows_perm hr1 hr2)
      · rw [e3', e3, columnsToCheck_congr hh1 hh2]
        by_cases hcol : columnsToCheck kc t1 t2 = []
        · simp [hcol]
        · rw [if_pos hcol, if_pos hcol]
          exact contentEntries_perm hh1 hh2 hr1 hr2
    · have huv : (validateKeyUniquenessOut kc f1 f2 t1 t2).1 = false := by
        show (decide (dupRowsOf kc t1 = []) &&
          decide (dupRowsOf kc t2 = [])) = false
        by_cases h1 : dupRowsOf kc t1 = []
        · by_cases h2 : dupRowsOf kc t2 = []
          · exact absurd ⟨h1, h2⟩ hdup
          · simp [h2]
        · simp [h1]
      have hdup' : ¬(dupRowsOf kc t1' = [] ∧ dupRowsOf kc t2' = []) := by
        intro hcon
        exact hdup ⟨List.Perm.eq_nil (hcon.1 ▸ (dupRowsOf_perm hr1).symm),
          List.Perm.eq_nil (hcon.2 ▸ (dupRowsOf_perm hr2).symm)⟩
      have huv' : (validateKeyUniquenessOut kc f1 f2 t1' t2').1 = false := by
        show (decide (dupRowsOf kc t1' = []) &&
          decide (dupRowsOf kc t2' = [])) = false
        by_cases h1 : dupRowsOf kc t1' = []
        · by_cases h2 : dupRowsOf kc t2' = []
          · exact absurd ⟨h1, h2⟩ hdup'
          · simp [h2]
        · simp [h1]
      obtain ⟨_, hsd⟩ := runLoaded_key_dup nfc kc f1 f2 t1 t2 hkc hke huv
      obtain ⟨_, hsd'⟩ := runLoaded_key_dup nfc kc f1 f2 t1' t2' hkc hke' huv'
      have hmf : ∀ d ∈ (runLoaded nfc kc f1 f2 t1 t2).structured_differences,
          isMatchPhase d = false := by
        rw [hsd]
        intro d hd
        rcases List.mem_append.mp hd with hd | hd
        · rcases List.mem_append.mp hd with hd | hd
          · rcases List.mem_append.mp hd with hd | hd
            · exact warnOut_matchfree t1 "File 1" d hd
            · exact warnOut_matchfree t2 "File 2" d hd
          · exact headerCompareOut_matchfree t1 t2 d hd
        · exact uniqOut_matchfree kc f1 f2 t1 t2 d hd
      have hmf' : ∀ d ∈ (runLoaded nfc kc f1 f2 t1' t2').structured_differences,
          isMatchPhase d = false := by
        rw [hsd']
        intro d hd
        rcases List.mem_append.mp hd with hd | hd
        · rcases List.mem_append.mp hd with hd | hd
          · rcases List.mem_append.mp hd with hd | hd
            · exact warnOut_matchfree t1' "File 1" d hd
            · exact warnOut_matchfree t2' "File 2" d hd
          · exact headerCompareOut_matchfree t1' t2' d hd
        · exact uniqOut_matchfree kc f1 f2 t1' t2' d hd
      exact extracts_trivial hmf hmf'
  · have hke' : keyErrsOf kc t1' t2' ≠ [] := by
      rw [keyErrsOf_congr hh1 hh2]
      exact hke
    have hsd := runLoaded_key_fatal nfc kc f1 f2 t1 t2 hkc hke
    have hsd' := runLoaded_key_fatal nfc kc f1 f2 t1' t2' hkc hke'
    have hmf : ∀ d ∈ (runLoaded nfc kc f1 f2 t1 t2).structured_differences,
        isMatchPhase d = false := by
      rw [hsd]
      intro d hd
      rcases List.mem_append.mp hd with hd | hd
      · exact warnOut_matchfree t1 "File 1" d hd
      · exact warnOut_matchfree t2 "File 2" d hd
    have hmf' : ∀ d ∈ (runLoaded nfc kc f1 f2 t1' t2').structured_differences,
        isMatchPhase d = false := by
      rw [hsd']
      intro d hd
      rcases List.mem_append.mp hd with hd | hd
      · exact warnOut_matchfree t1' "File 1" d hd
      · exact warnOut_matchfree t2' "File 2" d hd
    exact extracts_trivial hmf hmf'

/-- Witness for C7: the rows of source A reversed against the scenario pair. -/
theorem C7_witness :
    (runLoaded idNfc ["id"] "a.csv" "b.csv"
        (Table.mk ["id", "val"]
          [[("id", "2"), ("val", "20")], [("id", "1"), ("val", "10")]])
        exTableB).summary.missing_records =
      (runLoaded idNfc ["id"] "a.csv" "b.csv" exTableA
        exTableB).summary.missing_records ∧
    (missIdsOf (runLoaded idNfc ["id"] "a.csv" "b.csv"
        (Table.mk ["id", "val"]
          [[("id", "2"), ("val", "20")], [("id", "1"), ("val", "10")]])
        exTableB).structured_differences).Perm
      (missIdsOf (runLoaded idNfc ["id"] "a.csv" "b.csv" exTableA
        exTableB).structured_differences) := by
  have h := C7_order_independence idNfc ["id"] "a.csv" "b.csv" exTableA
    exTableB
    (Table.mk ["id", "val"]
      [[("id", "2"), ("val", "20")], [("id", "1"), ("val", "10")]])
    exTableB (by decide) (by decide) (by decide) (by decide) (by decide)
  exact ⟨h.1, h.2.2.1⟩

end Murex
